import Mathlib

/-
Verification of the Cajicá traffic ETL core (etl_cajica_routes.py).

The embedding models Python floats as real numbers (exact arithmetic), JSON
numbers in matrix cells as reals, and strings as Lean strings.  Geometry
follows shapely's planar semantics: `LineString.length` is the sum of the
Euclidean distances between consecutive vertices in coordinate (degree)
units, `interpolate` walks the chain and linearly interpolates inside a leg,
and `shapely.ops.substring` emits the interpolated start point, the original
vertices strictly between the two cut distances, and the interpolated end
point.
-/

/-- A geographic point as stored in the GeoJSON input: (longitude, latitude). -/
abbrev Pt : Type := ℝ × ℝ

/-- Planar Euclidean distance between two points, in coordinate units.
This is the metric shapely uses for `LineString.length` (the source never
converts to meters before measuring). -/
noncomputable def eucDist (p q : Pt) : ℝ :=
  Real.sqrt ((q.1 - p.1) ^ 2 + (q.2 - p.2) ^ 2)

/-- Length of a vertex chain: sum of the Euclidean leg lengths
(shapely `LineString.length`). -/
noncomputable def lineLength : List Pt → ℝ
  | p :: q :: r => eucDist p q + lineLength (q :: r)
  | _ => 0

/-- Linear interpolation between two points, coordinatewise. -/
def lerp (p q : Pt) (t : ℝ) : Pt :=
  (p.1 + t * (q.1 - p.1), p.2 + t * (q.2 - p.2))

/-- The point at cumulative distance `d` along the chain
(shapely `LineString.interpolate`); clamps beyond the last vertex. -/
noncomputable def interpolate : List Pt → ℝ → Pt
  | [], _ => ((0 : ℝ), (0 : ℝ))
  | [p], _ => p
  | p :: q :: r, d =>
      if d ≤ eucDist p q then lerp p q (d / eucDist p q)
      else interpolate (q :: r) (d - eucDist p q)

/-- Original vertices of the chain whose cumulative distance (starting from
accumulator `s`) lies strictly between `a` and `b`; the middle part of
`shapely.ops.substring`. -/
noncomputable def midVerts : List Pt → ℝ → ℝ → ℝ → List Pt
  | [], _, _, _ => []
  | [p], s, a, b => if a < s ∧ s < b then [p] else []
  | p :: q :: r, s, a, b =>
      (if a < s ∧ s < b then [p] else []) ++ midVerts (q :: r) (s + eucDist p q) a b

/-- The sub-chain of `c` between cumulative distances `a` and `b`
(`shapely.ops.substring(line, a, b, normalized=False)`). -/
noncomputable def substring (c : List Pt) (a b : ℝ) : List Pt :=
  interpolate c a :: (midVerts c 0 a b ++ [interpolate c b])

/-- The source's local `n = max(1, int(math.ceil(L / target_len_m)))`. -/
noncomputable def cutCount (line : List Pt) (target_len_m : ℝ) : ℕ :=
  max 1 ⌈lineLength line / target_len_m⌉₊

/-- Source `densify_to_subsegments(line, target_len_m)`: computes
`L = line.length`, returns `[]` for `L == 0`, otherwise cuts the chain at
`n = max(1, ceil(L / target))` equally spaced cumulative distances and keeps
the pieces with positive length, each returned as
`(Point(sub.coords[0]), Point(sub.coords[-1]), LineString(sub.coords))`. -/
noncomputable def densify_to_subsegments (line : List Pt) (target_len_m : ℝ) :
    List (Pt × Pt × List Pt) :=
  if lineLength line = 0 then []
  else
    ((List.range (cutCount line target_len_m)).map (fun (i : ℕ) =>
        substring line ((i : ℝ) / (cutCount line target_len_m : ℝ) * lineLength line)
          (min (((i : ℝ) + 1) / (cutCount line target_len_m : ℝ) * lineLength line)
            (lineLength line)))
      ).filterMap (fun sub =>
        if 0 < lineLength sub then
          some (sub.headD ((0 : ℝ), (0 : ℝ)), sub.getLastD ((0 : ℝ), (0 : ℝ)), sub)
        else none)

/-- The `i`-th cut piece of the densifier: the substring between the equally
spaced cumulative distances `i/n * L` and `(i+1)/n * L`. -/
noncomputable def cutPiece (line : List Pt) (target_len_m : ℝ) (i : ℕ) : List Pt :=
  substring line
    ((i : ℝ) / (cutCount line target_len_m : ℝ) * lineLength line)
    (((i : ℝ) + 1) / (cutCount line target_len_m : ℝ) * lineLength line)

/-! ### Duration parsing and speed estimation -/

/-- Value of a digit string, most significant first. -/
def digitsToNat (l : List Char) : ℕ :=
  l.foldl (fun a c => 10 * a + (c.toNat - 48)) 0

/-- Split a character list on the given separator (groups between separators). -/
def splitOnChar (x : Char) : List Char → List (List Char)
  | [] => [[]]
  | c :: rest =>
      let r := splitOnChar x rest
      if c = x then [] :: r
      else
        match r with
        | [] => [[c]]
        | g :: gs => (c :: g) :: gs

/-- The whitespace characters Python `float(str)` strips from both ends. -/
def isPySpace (c : Char) : Bool :=
  c = ' ' || c = '\t' || c = '\n' || c = '\r' || c = '\x0b' || c = '\x0c'

/-- Strip leading and trailing Python whitespace. -/
def trimPy (l : List Char) : List Char :=
  ((l.dropWhile isPySpace).reverse.dropWhile isPySpace).reverse

/-- Lower-case exactly the letters that can occur in a valid `float(str)`
input (`inf`, `infinity`, `nan` and the exponent marker); any other letter
makes the parse fail in either case, so this is behaviorally Python's
case-insensitivity. -/
def lowAlpha (c : Char) : Char :=
  if c = 'I' then 'i'
  else if c = 'N' then 'n'
  else if c = 'F' then 'f'
  else if c = 'A' then 'a'
  else if c = 'T' then 't'
  else if c = 'Y' then 'y'
  else if c = 'E' then 'e'
  else c

/-- No two adjacent underscores (Python allows only single underscores,
and only between digits). -/
def noDoubleUnd : List Char → Bool
  | '_' :: '_' :: _ => false
  | _ :: rest => noDoubleUnd rest
  | [] => true

/-- A valid digit group of Python's float grammar: nonempty, only digits and
underscores, starting and ending with a digit, no adjacent underscores —
exactly `digit (["_"] digit)*`. -/
def validGroup (l : List Char) : Bool :=
  !l.isEmpty
  && l.all (fun c => c.isDigit || c = '_')
  && (match l with | c :: _ => c.isDigit | [] => false)
  && (match l.getLast? with | some c => c.isDigit | none => false)
  && noDoubleUnd l

/-- The value Python `float(str)` produces, before conversion to a binary
double: a finite (exact rational, encoded `m * 10 ^ e`), infinite or nan
result. -/
inductive PyCore
  | finite (m : ℤ) (e : ℤ)
  | inf
  | neginf
  | nan
deriving DecidableEq

/-- Parse the exponent part after `e`: optional sign, then a digit group. -/
def parseExp (l : List Char) : Option ℤ :=
  let (es, d) : ℤ × List Char :=
    match l with
    | '-' :: r => (-1, r)
    | '+' :: r => (1, r)
    | r => (1, r)
  if validGroup d then some (es * digitsToNat (d.filter Char.isDigit)) else none

/-- Parse the mantissa (digits with an optional dot; at least one digit) and
combine with the sign and exponent value. -/
def parseMant (sg : ℤ) (mant : List Char) (ev : ℤ) : Option PyCore :=
  match splitOnChar '.' mant with
  | [w] =>
      if validGroup w then
        some (.finite (sg * digitsToNat (w.filter Char.isDigit)) ev)
      else none
  | [w, f] =>
      if (w = [] ∨ validGroup w) ∧ (f = [] ∨ validGroup f) ∧ ¬ (w = [] ∧ f = []) then
        some (.finite
          (sg * (digitsToNat (w.filter Char.isDigit) * 10 ^ (f.filter Char.isDigit).length
            + digitsToNat (f.filter Char.isDigit)))
          (ev - (f.filter Char.isDigit).length))
      else none
  | _ => none

/-- Core of the Python `float(str)` model over its ASCII grammar: optional
whitespace and sign, `inf`/`infinity`/`nan` case-insensitively, or a decimal
numeral with optional fraction and exponent, single underscores allowed
between digits.  Returns `none` exactly when Python raises `ValueError`
(unicode digits/whitespace are not modelled). -/
def pyFloatCore (cs0 : List Char) : Option PyCore :=
  let cs := (trimPy cs0).map lowAlpha
  let (sg, t) : ℤ × List Char :=
    match cs with
    | '-' :: r => (-1, r)
    | '+' :: r => (1, r)
    | r => (1, r)
  if t = ['i', 'n', 'f'] ∨ t = ['i', 'n', 'f', 'i', 'n', 'i', 't', 'y'] then
    some (if sg = 1 then .inf else .neginf)
  else if t = ['n', 'a', 'n'] then some .nan
  else
    match splitOnChar 'e' t with
    | [mant] => parseMant sg mant 0
    | [mant, ex] =>
        match parseExp ex with
        | none => none
        | some ev => parseMant sg mant ev
    | _ => none

/-- A parsed Python float value: exact rational, infinite or nan.  The final
rounding of the decimal to a binary double (and decimal-overflow to inf) is
not modelled — values stay exact rationals, consistently with the exact-real
float semantics used throughout this file. -/
inductive PyFloat
  | finite (q : ℚ)
  | inf
  | neginf
  | nan

/-- Evaluate a parsed core value. -/
def toPyFloat : PyCore → PyFloat
  | .finite m e => .finite ((m : ℚ) * (10 : ℚ) ^ e)
  | .inf => .inf
  | .neginf => .neginf
  | .nan => .nan

/-- Model of Python `float(str)`; `none` models `ValueError`. -/
def pyFloat? (s : String) : Option PyFloat :=
  (pyFloatCore s.toList).map toPyFloat

/-- Python's `sec <= 0` on a parsed float: `False` for `inf` and for `nan`
(every comparison with nan is false), `True` for `-inf`. -/
def pyFloatLe0 : PyFloat → Bool
  | .finite q => q ≤ 0
  | .inf => false
  | .neginf => true
  | .nan => false

/-- Model of Python `str.endswith("s")`: the last character is `'s'`. -/
def endsWithS (s : String) : Bool := s.toList.getLast? = some 's'

/-- Source `estimate_speed_kmh(distance_m, duration_iso)`: `nan` (modelled as
`none`) when the duration is falsy or does not end in `"s"`, when the number
before the `"s"` (`duration_iso[:-1]`) fails to parse (`ValueError` caught by
the `except`), or when Python's `sec <= 0` test holds; otherwise
`(distance_m / sec) * 3.6` — which is `0.0` for `sec = inf` and `nan` (hence
an undefined speed) for `sec = nan`, since `nan <= 0` is false. -/
noncomputable def estimate_speed_kmh (distance_m : ℝ) (duration_iso : Option String) :
    Option ℝ :=
  match duration_iso with
  | none => none
  | some s =>
      if s = "" ∨ ¬ endsWithS s then none
      else
        match pyFloat? (String.mk s.toList.dropLast) with
        | none => none
        | some sec =>
            if pyFloatLe0 sec then none
            else
              match sec with
              | .finite q => some (distance_m / (q : ℝ) * 3.6)
              | .inf => some 0
              | .neginf => some 0
              | .nan => none

/-- Source `grade_color(speed_kmh)`: gray for `nan` (modelled as `none`), then
the threshold ladder 45 / 30 / 15. -/
noncomputable def grade_color (speed_kmh : Option ℝ) : String :=
  match speed_kmh with
  | none => "#888888"
  | some v =>
      if 45 ≤ v then "#2E7D32"
      else if 30 ≤ v then "#F9A825"
      else if 15 ≤ v then "#EF6C00"
      else "#C62828"

/-! ### Rounding -/

/-- Python `round` to an integer: round half to even (banker's rounding). -/
noncomputable def rndHalfToEven (x : ℝ) : ℤ :=
  if x - (⌊x⌋ : ℝ) = 1 / 2 then (if Even ⌊x⌋ then ⌊x⌋ else ⌊x⌋ + 1) else round x

/-- Python `round(x, 1)` under exact-real semantics. -/
noncomputable def round1 (x : ℝ) : ℝ := ((rndHalfToEven (10 * x) : ℤ) : ℝ) / 10

/-- Modelled from the spec: "rounding must be half-up to one decimal" — the
mathlib `round` is exactly round-half-up (`⌊x + 1/2⌋`).  The source has no such
function; this is the spec's rounding rule, for comparison with `round1`. -/
noncomputable def roundHalfUp1 (x : ℝ) : ℝ := ((round (10 * x) : ℤ) : ℝ) / 10

/-! ### Matrix cells and per-batch reconciliation -/

/-- One parsed NDJSON cell of the computeRouteMatrix response, with every field
the source reads via `.get` (hence optional). -/
structure MatrixCell where
  originIndex : Option ℤ
  destinationIndex : Option ℤ
  status : Option String
  distanceMeters : Option ℝ
  duration : Option String

/-- One `(oi, di, dist_m, dur, spd)` tuple of the source's `speed_vals` list. -/
structure SVal where
  oi : Option ℤ
  di : Option ℤ
  dist : ℝ
  dur : Option String
  spd : Option ℝ

/-- The source's per-cell processing: `dist_m = float(cell.get("distanceMeters", 0.0))`,
`dur = cell.get("duration")`, `spd = nan` when `status != "OK"`, else
`estimate_speed_kmh(dist_m, dur)`. -/
noncomputable def speedVal (cell : MatrixCell) : SVal :=
  { oi := cell.originIndex
    di := cell.destinationIndex
    dist := cell.distanceMeters.getD 0
    dur := cell.duration
    spd := if cell.status ≠ some "OK" then none
           else estimate_speed_kmh (cell.distanceMeters.getD 0) cell.duration }

/-- The source's `speed_vals` list for one batch. -/
noncomputable def mkSpeedVals (cells : List MatrixCell) : List SVal :=
  cells.map speedVal

/-- One densified subsegment as carried in `all_pairs`: `(p0, p1, subgeom)`
(the parent properties are an opaque payload the claims do not inspect). -/
structure SubPair where
  p0 : Pt
  p1 : Pt
  geom : List Pt

/-- One output feature.  `duration = none` models the `"duration"` key being
absent from the properties dict; `duration = some d` models the key present
with value `d` (where `d = none` is JSON null). -/
structure Feature where
  geometry : List Pt
  speed_kmh : Option ℝ
  distance_m : ℝ
  duration : Option (Option String)
  color : String

/-- The source's per-subsegment reconciliation (the body of
`for k, (p0, p1, subgeom, props) in enumerate(batch)`): look up the first
`speed_vals` entry with `originIndex == k` and `destinationIndex == k`; on a
miss emit nan speed, geometric distance and null duration; on a hit fall back
to the geometric distance only when the reported distance is `≤ 0`. -/
noncomputable def annotateSub (k : ℕ) (s : SubPair) (svals : List SVal) : Feature :=
  match svals.find? (fun sv => sv.oi == some (k : ℤ) && sv.di == some (k : ℤ)) with
  | none =>
      { geometry := s.geom
        speed_kmh := none
        distance_m := round1 (lineLength s.geom)
        duration := some none
        color := grade_color none }
  | some sv =>
      { geometry := s.geom
        speed_kmh := Option.map round1 sv.spd
        distance_m := round1 (if sv.dist ≤ 0 then lineLength s.geom else sv.dist)
        duration := some sv.dur
        color := grade_color sv.spd }

/-- Reconciles a batch against its parsed cells, indexing subsegments from `k`. -/
noncomputable def reconcileAux (svals : List SVal) : ℕ → List SubPair → List Feature
  | _, [] => []
  | k, s :: rest => annotateSub k s svals :: reconcileAux svals (k + 1) rest

/-- The successful-request arm of the batch loop in `run_once`. -/
noncomputable def reconcileBatch (batch : List SubPair) (cells : List MatrixCell) :
    List Feature :=
  reconcileAux (mkSpeedVals cells) 0 batch

/-- The failed-request arm of the batch loop in `run_once`: null speed, raw
(unrounded) geometric length, NO duration key, gray color. -/
noncomputable def failFeature (s : SubPair) : Feature :=
  { geometry := s.geom
    speed_kmh := none
    distance_m := lineLength s.geom
    duration := none
    color := grade_color none }

/-- One iteration of the batch loop: `none` models the request raising. -/
noncomputable def processBatch (batch : List SubPair) (res : Option (List MatrixCell)) :
    List Feature :=
  match res with
  | none => batch.map failFeature
  | some cells => reconcileBatch batch cells

/-- The whole batch loop, batches numbered from `j`. -/
noncomputable def processAll (oracle : ℕ → Option (List MatrixCell)) :
    ℕ → List (List SubPair) → List Feature
  | _, [] => []
  | j, b :: rest => processBatch b (oracle j) ++ processAll oracle (j + 1) rest

/-! ### run_once -/

/-- Errors that abort `run_once`: the `sys.exit(2)` on a missing API key, and
an exception escaping the densification phase. -/
inductive RunError
  | config
  | parse

/-- One input GeoJSON feature: its `geometry.type` and coordinate list. -/
structure InFeature where
  gtype : String
  coords : List Pt

/-- Shapely's `LineString(coords)` constructor: raises on a single-coordinate
array, accepts an empty one (empty geometry) and two or more points. -/
def mkLineString (coords : List Pt) : Except RunError (List Pt) :=
  if coords.length = 1 then .error .parse else .ok coords

/-- The `all_pairs` collection loop of `run_once`: skip non-LineString
features, build the LineString, densify, append. -/
noncomputable def collectPairs (target : ℝ) : List InFeature → Except RunError (List SubPair)
  | [] => .ok []
  | f :: rest =>
      if f.gtype = "LineString" then
        match mkLineString f.coords with
        | .error e => .error e
        | .ok line =>
            match collectPairs target rest with
            | .error e => .error e
            | .ok tail =>
                .ok ((densify_to_subsegments line target).map
                      (fun t => ⟨t.1, t.2.1, t.2.2⟩) ++ tail)
      else collectPairs target rest

/-- The subsegments `run_once` is expected to produce when no feature raises:
per LineString feature, its densified pieces, in traversal order. -/
noncomputable def allSubs (feats : List InFeature) (target : ℝ) : List SubPair :=
  ((feats.filter (fun f => f.gtype = "LineString")).map
    (fun f => (densify_to_subsegments f.coords target).map
      (fun t => ⟨t.1, t.2.1, t.2.2⟩))).flatten

/-- Consecutive batches of at most `B` subsegments (`all_pairs[i:i+batch_size]`). -/
def chunks {α : Type} (B : ℕ) : List α → List (List α)
  | [] => []
  | x :: xs => (x :: xs).take B :: chunks B (xs.drop (B - 1))
termination_by l => l.length
decreasing_by
  simp only [List.length_drop, List.length_cons]
  omega

/-- Source `run_once`: abort on a missing API key, collect and densify the
LineString features, then process batch by batch; `oracle j` is the outcome of
the `j`-th matrix request (`none` = the request raised). -/
noncomputable def run_once (api_key : Option String) (feats : List InFeature)
    (subsegment_m : ℝ) (batch_size : ℕ) (oracle : ℕ → Option (List MatrixCell)) :
    Except RunError (List Feature) :=
  match api_key with
  | none => .error .config
  | some _ =>
      match collectPairs subsegment_m feats with
      | .error e => .error e
      | .ok pairs => .ok (processAll oracle 0 (chunks batch_size pairs))

/-- Modelled from the spec: the Geodesic Distance Calculator of §4.1 —
"distance in meters using the haversine formula on a sphere of radius
6,371,008.8 m" for two (longitude, latitude) points in degrees.  The shapely
ETL variant in src defines no such function (it measures with planar shapely
lengths); this definition follows the spec's words, for comparison. -/
noncomputable def haversineDistM (p q : Pt) : ℝ :=
  let rad : ℝ := Real.pi / 180
  let lat1 := p.2 * rad
  let lat2 := q.2 * rad
  let dlat := lat2 - lat1
  let dlon := (q.1 - p.1) * rad
  let h := Real.sin (dlat / 2) ^ 2
      + Real.cos lat1 * Real.cos lat2 * Real.sin (dlon / 2) ^ 2
  2 * 6371008.8 * Real.arcsin (Real.sqrt h)

/-! ### Basic facts about the planar metric -/

theorem eucDist_nonneg (p q : Pt) : 0 ≤ eucDist p q :=
  Real.sqrt_nonneg _

theorem eucDist_self (p : Pt) : eucDist p p = 0 := by
  simp [eucDist]

theorem eucDist_eq_zero {p q : Pt} (h : eucDist p q = 0) : p = q := by
  unfold eucDist at h
  have hx : (q.1 - p.1) ^ 2 + (q.2 - p.2) ^ 2 = 0 := by
    have h0 : 0 ≤ (q.1 - p.1) ^ 2 + (q.2 - p.2) ^ 2 := by positivity
    have := Real.sqrt_eq_zero h0 |>.mp h
    exact this
  have h1 : (q.1 - p.1) ^ 2 = 0 ∧ (q.2 - p.2) ^ 2 = 0 := by
    constructor <;> nlinarith [sq_nonneg (q.1 - p.1), sq_nonneg (q.2 - p.2)]
  have e1 : q.1 = p.1 := by nlinarith [h1.1]
  have e2 : q.2 = p.2 := by nlinarith [h1.2]
  apply Prod.ext <;> simp [e1, e2]

theorem lineLength_nonneg (c : List Pt) : 0 ≤ lineLength c := by
  induction c with
  | nil => simp [lineLength]
  | cons p t ih =>
      cases t with
      | nil => simp [lineLength]
      | cons q r =>
          have := eucDist_nonneg p q
          simp only [lineLength]
          have : 0 ≤ lineLength (q :: r) := ih
          positivity

theorem lerp_zero (p q : Pt) : lerp p q 0 = p := by
  simp [lerp]

theorem lerp_one (p q : Pt) : lerp p q 1 = q := by
  simp [lerp]

theorem eucDist_lerp_lerp (p q : Pt) (s t : ℝ) :
    eucDist (lerp p q s) (lerp p q t) = |t - s| * eucDist p q := by
  unfold eucDist lerp
  have h1 : (p.1 + t * (q.1 - p.1) - (p.1 + s * (q.1 - p.1))) = (t - s) * (q.1 - p.1) := by ring
  have h2 : (p.2 + t * (q.2 - p.2) - (p.2 + s * (q.2 - p.2))) = (t - s) * (q.2 - p.2) := by ring
  simp only [h1, h2]
  have : ((t - s) * (q.1 - p.1)) ^ 2 + ((t - s) * (q.2 - p.2)) ^ 2
      = (t - s) ^ 2 * ((q.1 - p.1) ^ 2 + (q.2 - p.2) ^ 2) := by ring
  rw [this, Real.sqrt_mul (sq_nonneg _), Real.sqrt_sq_eq_abs]

/-! ### Interpolation and substring lemmas -/

theorem interpolate_zero (p : Pt) (t : List Pt) : interpolate (p :: t) 0 = p := by
  cases t with
  | nil => rfl
  | cons q r =>
      have h0 : (0 : ℝ) ≤ eucDist p q := eucDist_nonneg p q
      simp [interpolate, h0, lerp]

theorem getLastD_eq_head_of_length_zero {q : Pt} {r : List Pt}
    (h : lineLength (q :: r) = 0) (d : Pt) : (q :: r).getLastD d = q := by
  induction r generalizing q d with
  | nil => rfl
  | cons a r' ih =>
      have hsplit : eucDist q a + lineLength (a :: r') = 0 := h
      have h1 : eucDist q a = 0 := by
        have := eucDist_nonneg q a
        have := lineLength_nonneg (a :: r')
        linarith
      have h2 : lineLength (a :: r') = 0 := by
        have := eucDist_nonneg q a
        linarith
      have hqa : q = a := eucDist_eq_zero h1
      have : (a :: r').getLastD q = a := ih h2 q
      simpa [List.getLastD, hqa] using this

theorem interpolate_of_ge {p : Pt} {t : List Pt} {d : ℝ}
    (hlen : lineLength (p :: t) ≤ d) (hd : 0 ≤ d) :
    interpolate (p :: t) d = (p :: t).getLastD ((0 : ℝ), (0 : ℝ)) := by
  induction t generalizing p d with
  | nil => rfl
  | cons q r ih =>
      have hlen' : eucDist p q + lineLength (q :: r) ≤ d := hlen
      have hlast : (p :: q :: r).getLastD ((0 : ℝ), (0 : ℝ))
          = (q :: r).getLastD ((0 : ℝ), (0 : ℝ)) := by
        cases r <;> rfl
      by_cases hle : d ≤ eucDist p q
      · have hqr0 : lineLength (q :: r) = 0 := by
          have := lineLength_nonneg (q :: r)
          linarith
        have hdeq : d = eucDist p q := by linarith
        by_cases hℓ : eucDist p q = 0
        · have hpq : p = q := eucDist_eq_zero hℓ
          simp only [interpolate, if_pos hle]
          rw [hlast, getLastD_eq_head_of_length_zero hqr0, hdeq, hℓ]
          simp [lerp, hpq]
        · simp only [interpolate, if_pos hle]
          rw [hlast, getLastD_eq_head_of_length_zero hqr0, hdeq, div_self hℓ, lerp_one]
      · push_neg at hle
        have h1 : lineLength (q :: r) ≤ d - eucDist p q := by linarith
        have h2 : (0 : ℝ) ≤ d - eucDist p q := by linarith
        simp only [interpolate, if_neg (not_le.mpr hle)]
        rw [hlast]
        exact ih h1 h2

theorem interpolate_shift {p q : Pt} {r : List Pt} {a : ℝ} (h : eucDist p q ≤ a) :
    interpolate (p :: q :: r) a = interpolate (q :: r) (a - eucDist p q) := by
  by_cases hle : a ≤ eucDist p q
  · have haeq : a = eucDist p q := le_antisymm hle h
    rw [haeq]
    simp only [interpolate, if_pos (le_refl _), sub_self]
    rw [interpolate_zero]
    by_cases hℓ : eucDist p q = 0
    · have hpq : p = q := eucDist_eq_zero hℓ
      simp [hℓ, lerp, hpq]
    · rw [div_self hℓ, lerp_one]
  · simp only [interpolate, if_neg hle]

theorem midVerts_nil_of_le {c : List Pt} {s a b : ℝ} (h : b ≤ s) :
    midVerts c s a b = [] := by
  induction c generalizing s with
  | nil => rfl
  | cons p t ih =>
      cases t with
      | nil =>
          have : ¬ (a < s ∧ s < b) := by
            rintro ⟨_, h2⟩; linarith
          simp [midVerts, this]
      | cons q r =>
          have hcond : ¬ (a < s ∧ s < b) := by
            rintro ⟨_, h2⟩; linarith
          have hs' : b ≤ s + eucDist p q := by
            have := eucDist_nonneg p q
            linarith
          simp only [midVerts, if_neg hcond, List.nil_append]
          exact ih hs'

theorem midVerts_shift (c : List Pt) (s a b u : ℝ) :
    midVerts c (s + u) (a + u) (b + u) = midVerts c s a b := by
  induction c generalizing s with
  | nil => rfl
  | cons p t ih =>
      cases t with
      | nil =>
          have hiff : (a + u < s + u ∧ s + u < b + u) ↔ (a < s ∧ s < b) := by
            constructor <;> rintro ⟨h1, h2⟩ <;> constructor <;> linarith
          simp only [midVerts]
          by_cases hc : a < s ∧ s < b
          · rw [if_pos (hiff.mpr hc), if_pos hc]
          · rw [if_neg (fun h => hc (hiff.mp h)), if_neg hc]
      | cons q r =>
          have hiff : (a + u < s + u ∧ s + u < b + u) ↔ (a < s ∧ s < b) := by
            constructor <;> rintro ⟨h1, h2⟩ <;> constructor <;> linarith
          have harith : s + u + eucDist p q = (s + eucDist p q) + u := by ring
          simp only [midVerts]
          rw [harith, ih (s + eucDist p q)]
          by_cases hc : a < s ∧ s < b
          · rw [if_pos (hiff.mpr hc), if_pos hc]
          · rw [if_neg (fun h => hc (hiff.mp h)), if_neg hc]

theorem midVerts_congr_lo {c : List Pt} {s a a' b : ℝ} (h : a < s) (h' : a' < s) :
    midVerts c s a b = midVerts c s a' b := by
  induction c generalizing s with
  | nil => rfl
  | cons p t ih =>
      cases t with
      | nil =>
          simp only [midVerts]
          by_cases hb : s < b
          · rw [if_pos ⟨h, hb⟩, if_pos ⟨h', hb⟩]
          · rw [if_neg (by rintro ⟨_, h2⟩; exact hb h2),
               if_neg (by rintro ⟨_, h2⟩; exact hb h2)]
      | cons q r =>
          have hnext : a < s + eucDist p q := by
            have := eucDist_nonneg p q; linarith
          have hnext' : a' < s + eucDist p q := by
            have := eucDist_nonneg p q; linarith
          simp only [midVerts]
          rw [ih hnext hnext']
          by_cases hb : s < b
          · rw [if_pos ⟨h, hb⟩, if_pos ⟨h', hb⟩]
          · rw [if_neg (by rintro ⟨_, h2⟩; exact hb h2),
               if_neg (by rintro ⟨_, h2⟩; exact hb h2)]

theorem midVerts_split {y : Pt} {t : List Pt} {s a b : ℝ} (h : a < s) (hb : s < b) :
    ∃ k : ℕ, midVerts (y :: t) s a b
      = List.replicate (k + 1) y ++ midVerts (y :: t) s s b := by
  induction t generalizing y s with
  | nil =>
      refine ⟨0, ?_⟩
      have hc : a < s ∧ s < b := ⟨h, hb⟩
      have hns : ¬ (s < s ∧ s < b) := by rintro ⟨h1, _⟩; exact lt_irrefl s h1
      simp only [midVerts, if_pos hc, if_neg hns]
      rfl
  | cons z t' ih =>
      have hc : a < s ∧ s < b := ⟨h, hb⟩
      have hns : ¬ (s < s ∧ s < b) := by rintro ⟨h1, _⟩; exact lt_irrefl s h1
      by_cases hd : eucDist y z = 0
      · have hyz : y = z := eucDist_eq_zero hd
        obtain ⟨k', hk'⟩ := @ih z s h hb
        refine ⟨k' + 1, ?_⟩
        simp only [midVerts, if_pos hc, if_neg hns, hd, add_zero, List.nil_append]
        rw [hk']
        subst hyz
        simp [List.replicate_succ]
      · have hdpos : 0 < eucDist y z := lt_of_le_of_ne (eucDist_nonneg y z) (Ne.symm hd)
        refine ⟨0, ?_⟩
        have hcongr : midVerts (z :: t') (s + eucDist y z) a b
            = midVerts (z :: t') (s + eucDist y z) s b :=
          @midVerts_congr_lo (z :: t') (s + eucDist y z) a s b (by linarith) (by linarith)
        simp only [midVerts, if_pos hc, if_neg hns, List.nil_append]
        rw [hcongr]
        simp [List.replicate_succ]

theorem lineLength_cons_replicate (x q : Pt) (k : ℕ) (l : List Pt) :
    lineLength (x :: (List.replicate (k + 1) q ++ l))
      = eucDist x q + lineLength (q :: l) := by
  induction k generalizing x with
  | zero => simp [List.replicate_succ, lineLength]
  | succ k ih =>
      have step : List.replicate (k + 1 + 1) q ++ l = q :: (List.replicate (k + 1) q ++ l) := by
        simp [List.replicate_succ]
      rw [step]
      have : lineLength (x :: q :: (List.replicate (k + 1) q ++ l))
          = eucDist x q + lineLength (q :: (List.replicate (k + 1) q ++ l)) := rfl
      rw [this, ih q, eucDist_self, zero_add]

/-- Key geometric fact: the shapely substring between cut distances `a ≤ b`
within the chain has length exactly `b - a`. -/
theorem lineLength_substring (c : List Pt) : ∀ a b : ℝ,
    0 ≤ a → a ≤ b → b ≤ lineLength c →
    lineLength (substring c a b) = b - a := by
  induction c with
  | nil =>
      intro a b ha hab hblen
      have hlen0 : lineLength ([] : List Pt) = 0 := rfl
      rw [hlen0] at hblen
      have hb0 : b = 0 := le_antisymm hblen (le_trans ha hab)
      have ha0 : a = 0 := le_antisymm (hb0 ▸ hab) ha
      subst hb0; subst ha0
      simp [substring, interpolate, midVerts, lineLength, eucDist_self]
  | cons p t ih =>
      cases t with
      | nil =>
          intro a b ha hab hblen
          have hlen0 : lineLength [p] = 0 := rfl
          rw [hlen0] at hblen
          have hb0 : b = 0 := le_antisymm hblen (le_trans ha hab)
          have ha0 : a = 0 := le_antisymm (hb0 ▸ hab) ha
          subst hb0; subst ha0
          have hmv : midVerts [p] 0 0 0 = [] := by
            simp [midVerts]
          simp [substring, hmv, interpolate, lineLength, eucDist_self]
      | cons q r =>
          intro a b ha hab hblen
          have hlen : lineLength (p :: q :: r) = eucDist p q + lineLength (q :: r) := rfl
          have hmv : midVerts (p :: q :: r) 0 a b = midVerts (q :: r) (eucDist p q) a b := by
            have hcond : ¬ (a < 0 ∧ 0 < b) := by rintro ⟨h1, _⟩; linarith
            simp only [midVerts, if_neg hcond, List.nil_append, zero_add]
          by_cases hbℓ : b ≤ eucDist p q
          · -- whole substring inside the first leg
            have hmv2 : midVerts (q :: r) (eucDist p q) a b = [] := midVerts_nil_of_le hbℓ
            have hia : interpolate (p :: q :: r) a = lerp p q (a / eucDist p q) := by
              simp only [interpolate, if_pos (le_trans hab hbℓ)]
            have hib : interpolate (p :: q :: r) b = lerp p q (b / eucDist p q) := by
              simp only [interpolate, if_pos hbℓ]
            simp only [substring, hmv, hmv2, hia, hib, List.nil_append]
            have hll : lineLength [lerp p q (a / eucDist p q), lerp p q (b / eucDist p q)]
                = eucDist (lerp p q (a / eucDist p q)) (lerp p q (b / eucDist p q)) := by
              simp [lineLength]
            rw [hll, eucDist_lerp_lerp]
            by_cases hℓ0 : eucDist p q = 0
            · have hb0 : b = 0 := le_antisymm (by rw [hℓ0] at hbℓ; exact hbℓ) (le_trans ha hab)
              have ha0 : a = 0 := le_antisymm (hb0 ▸ hab) ha
              rw [hℓ0, ha0, hb0]
              simp
            · have hℓpos : 0 < eucDist p q := lt_of_le_of_ne (eucDist_nonneg p q) (Ne.symm hℓ0)
              have habs : b / eucDist p q - a / eucDist p q ≥ 0 := by
                have : a / eucDist p q ≤ b / eucDist p q := by gcongr
                linarith
              rw [abs_of_nonneg habs]
              field_simp
          · push_neg at hbℓ
            have hbtail : b - eucDist p q ≤ lineLength (q :: r) := by
              rw [hlen] at hblen; linarith
            by_cases haℓ : eucDist p q ≤ a
            · -- substring entirely beyond the first leg: shift
              have hia : interpolate (p :: q :: r) a
                  = interpolate (q :: r) (a - eucDist p q) := interpolate_shift haℓ
              have hib : interpolate (p :: q :: r) b
                  = interpolate (q :: r) (b - eucDist p q) := interpolate_shift (le_of_lt hbℓ)
              have hmv3 : midVerts (q :: r) (eucDist p q) a b
                  = midVerts (q :: r) 0 (a - eucDist p q) (b - eucDist p q) := by
                have := midVerts_shift (q :: r) 0 (a - eucDist p q) (b - eucDist p q) (eucDist p q)
                simpa using this
              simp only [substring, hmv, hmv3, hia, hib]
              have heq : interpolate (q :: r) (a - eucDist p q)
                    :: (midVerts (q :: r) 0 (a - eucDist p q) (b - eucDist p q)
                        ++ [interpolate (q :: r) (b - eucDist p q)])
                  = substring (q :: r) (a - eucDist p q) (b - eucDist p q) := rfl
              rw [heq, ih (a - eucDist p q) (b - eucDist p q) (by linarith) (by linarith) hbtail]
              ring
            · -- start inside the first leg, end beyond it
              push_neg at haℓ
              have hℓpos : 0 < eucDist p q := lt_of_le_of_lt ha haℓ
              have hia : interpolate (p :: q :: r) a = lerp p q (a / eucDist p q) := by
                simp only [interpolate, if_pos (le_of_lt haℓ)]
              have hib : interpolate (p :: q :: r) b
                  = interpolate (q :: r) (b - eucDist p q) := interpolate_shift (le_of_lt hbℓ)
              obtain ⟨k, hk⟩ := @midVerts_split q r (eucDist p q) a b haℓ hbℓ
              have hmv4 : midVerts (q :: r) (eucDist p q) (eucDist p q) b
                  = midVerts (q :: r) 0 0 (b - eucDist p q) := by
                have := midVerts_shift (q :: r) 0 0 (b - eucDist p q) (eucDist p q)
                simpa using this
              simp only [substring, hmv, hk, hmv4, hia, hib, List.append_assoc]
              rw [lineLength_cons_replicate]
              have hq0 : q = interpolate (q :: r) 0 := (interpolate_zero q r).symm
              have heq : q :: (midVerts (q :: r) 0 0 (b - eucDist p q)
                    ++ [interpolate (q :: r) (b - eucDist p q)])
                  = substring (q :: r) 0 (b - eucDist p q) := by
                rw [substring, ← hq0]
              rw [heq, ih 0 (b - eucDist p q) (le_refl 0) (by linarith) hbtail]
              have hdl : eucDist (lerp p q (a / eucDist p q)) q = eucDist p q - a := by
                have h1 : eucDist (lerp p q (a / eucDist p q)) q
                    = eucDist (lerp p q (a / eucDist p q)) (lerp p q 1) := by rw [lerp_one]
                rw [h1, eucDist_lerp_lerp]
                have hfrac : a / eucDist p q ≤ 1 := by
                  rw [div_le_one hℓpos]; exact le_of_lt haℓ
                rw [abs_of_nonneg (by linarith)]
                field_simp
              rw [hdl]
              ring

/-! ### Densifier structure -/

theorem cutCount_pos (line : List Pt) (target : ℝ) : 0 < cutCount line target :=
  lt_of_lt_of_le one_pos (le_max_left _ _)

theorem cutCount_cast_pos (line : List Pt) (target : ℝ) :
    (0 : ℝ) < (cutCount line target : ℝ) := by
  exact_mod_cast cutCount_pos line target

theorem cutPiece_bounds (line : List Pt) (target : ℝ) (hT : 0 < lineLength line)
    (i : ℕ) (hi : i ∈ List.range (cutCount line target)) :
    0 ≤ (i : ℝ) / (cutCount line target : ℝ) * lineLength line
    ∧ (i : ℝ) / (cutCount line target : ℝ) * lineLength line
        ≤ ((i : ℝ) + 1) / (cutCount line target : ℝ) * lineLength line
    ∧ ((i : ℝ) + 1) / (cutCount line target : ℝ) * lineLength line ≤ lineLength line := by
  rw [List.mem_range] at hi
  have hnpos := cutCount_cast_pos line target
  have hic : (i : ℝ) + 1 ≤ (cutCount line target : ℝ) := by
    exact_mod_cast Nat.succ_le_of_lt hi
  refine ⟨?_, ?_, ?_⟩
  · exact mul_nonneg (div_nonneg (Nat.cast_nonneg i) (le_of_lt hnpos)) (le_of_lt hT)
  · have h1 : (i : ℝ) / (cutCount line target : ℝ)
        ≤ ((i : ℝ) + 1) / (cutCount line target : ℝ) := by
      gcongr
      linarith
    exact mul_le_mul_of_nonneg_right h1 (le_of_lt hT)
  · have h1 : ((i : ℝ) + 1) / (cutCount line target : ℝ) ≤ 1 := (div_le_one hnpos).mpr hic
    calc ((i : ℝ) + 1) / (cutCount line target : ℝ) * lineLength line
        ≤ 1 * lineLength line := mul_le_mul_of_nonneg_right h1 (le_of_lt hT)
      _ = lineLength line := one_mul _

theorem cutPiece_length (line : List Pt) (target : ℝ) (hT : 0 < lineLength line)
    (i : ℕ) (hi : i ∈ List.range (cutCount line target)) :
    lineLength (cutPiece line target i)
      = lineLength line / (cutCount line target : ℝ) := by
  obtain ⟨h0, h1, h2⟩ := cutPiece_bounds line target hT i hi
  have hnpos := cutCount_cast_pos line target
  unfold cutPiece
  rw [lineLength_substring line _ _ h0 h1 h2]
  field_simp
  ring

theorem filterMap_of_all {α β : Type} (P : α → Prop) [DecidablePred P] (g : α → β) :
    ∀ l : List α, (∀ x ∈ l, P x) →
      l.filterMap (fun x => if P x then some (g x) else none) = l.map g := by
  intro l
  induction l with
  | nil => intro _; rfl
  | cons x t ih =>
      intro h
      have hx : P x := h x (List.mem_cons_self x t)
      have ht : ∀ y ∈ t, P y := fun y hy => h y (List.mem_cons_of_mem x hy)
      simp [List.filterMap_cons, hx, ih ht]

/-- Under positive total length the densifier's `min` is redundant and its
positive-length filter keeps every piece: the output is exactly the `n` cut
pieces in order. -/
theorem densify_structure (line : List Pt) (target : ℝ) (hT : 0 < lineLength line) :
    densify_to_subsegments line target
      = (List.range (cutCount line target)).map (fun i =>
          ((cutPiece line target i).headD ((0 : ℝ), (0 : ℝ)),
           (cutPiece line target i).getLastD ((0 : ℝ), (0 : ℝ)),
           cutPiece line target i)) := by
  have hnpos := cutCount_cast_pos line target
  unfold densify_to_subsegments
  rw [if_neg (ne_of_gt hT)]
  have hstep1 : (List.range (cutCount line target)).map
      (fun (i : ℕ) => substring line
        ((i : ℝ) / (cutCount line target : ℝ) * lineLength line)
        (min (((i : ℝ) + 1) / (cutCount line target : ℝ) * lineLength line)
          (lineLength line)))
      = (List.range (cutCount line target)).map (cutPiece line target) := by
    apply List.map_congr_left
    intro i hi
    obtain ⟨h0, h1, h2⟩ := cutPiece_bounds line target hT i hi
    rw [min_eq_left h2]
    rfl
  rw [hstep1]
  rw [filterMap_of_all (fun sub => 0 < lineLength sub)
    (fun sub => (sub.headD ((0 : ℝ), (0 : ℝ)), sub.getLastD ((0 : ℝ), (0 : ℝ)), sub)) _ ?_]
  · rw [List.map_map]
    rfl
  · intro x hx
    rw [List.mem_map] at hx
    obtain ⟨i, hi, rfl⟩ := hx
    rw [cutPiece_length line target hT i hi]
    exact div_pos hT hnpos

theorem getLastD_append_singleton (M : List Pt) (y d : Pt) : (M ++ [y]).getLastD d = y := by
  rw [List.getLastD_eq_getLast?, List.getLast?_concat]
  rfl

theorem substring_headD (c : List Pt) (a b : ℝ) (d : Pt) :
    (substring c a b).headD d = interpolate c a := rfl

theorem substring_getLastD (c : List Pt) (a b : ℝ) (d : Pt) :
    (substring c a b).getLastD d = interpolate c b := by
  unfold substring
  rw [← List.cons_append]
  exact getLastD_append_singleton _ _ _

theorem head?_eq_get?0 {α : Type} (l : List α) : l.head? = l.get? 0 := by
  cases l <;> rfl

theorem interpolate_zero_headD (c : List Pt) (hne : c ≠ []) :
    interpolate c 0 = c.headD ((0 : ℝ), (0 : ℝ)) := by
  cases c with
  | nil => exact absurd rfl hne
  | cons p t => rw [interpolate_zero]; rfl

theorem interpolate_full (c : List Pt) (hne : c ≠ []) :
    interpolate c (lineLength c) = c.getLastD ((0 : ℝ), (0 : ℝ)) := by
  cases c with
  | nil => exact absurd rfl hne
  | cons p t =>
      exact interpolate_of_ge (le_refl (lineLength (p :: t))) (lineLength_nonneg (p :: t))

theorem densify_length (c : List Pt) (L : ℝ) (hT : 0 < lineLength c) :
    (densify_to_subsegments c L).length = cutCount c L := by
  rw [densify_structure c L hT]
  simp

theorem densify_get? (c : List Pt) (L : ℝ) (hT : 0 < lineLength c)
    (i : ℕ) (hi : i < cutCount c L) :
    (densify_to_subsegments c L).get? i
      = some ((cutPiece c L i).headD ((0 : ℝ), (0 : ℝ)),
              (cutPiece c L i).getLastD ((0 : ℝ), (0 : ℝ)),
              cutPiece c L i) := by
  rw [densify_structure c L hT, List.get?_map, List.get?_range hi]
  rfl

/-- C3: for a vertex chain of total length `T` and target `L > 0`, the
densifier returns `[]` when `T = 0` (so two identical points give zero
subsegments), and otherwise emits exactly `n = max(1, ceil(T/L))` subsegments
(none are lost to the zero-length filter under exact arithmetic), cut at the
`n` equally spaced cumulative distances `0, T/n, …, T`. -/
theorem claim_C3 (c : List Pt) (L : ℝ) (hL : 0 < L) :
    (lineLength c = 0 → densify_to_subsegments c L = [])
    ∧ (∀ p : Pt, densify_to_subsegments [p, p] L = [])
    ∧ (0 < lineLength c →
        densify_to_subsegments c L
          = (List.range (cutCount c L)).map (fun i =>
              ((cutPiece c L i).headD ((0 : ℝ), (0 : ℝ)),
               (cutPiece c L i).getLastD ((0 : ℝ), (0 : ℝ)),
               cutPiece c L i))
        ∧ (densify_to_subsegments c L).length = cutCount c L
        ∧ cutCount c L = max 1 ⌈lineLength c / L⌉₊
        ∧ ∀ i ∈ List.range (cutCount c L),
            cutPiece c L i = substring c
              ((i : ℝ) * (lineLength c / (cutCount c L : ℝ)))
              (((i : ℝ) + 1) * (lineLength c / (cutCount c L : ℝ)))) := by
  refine ⟨?_, ?_, ?_⟩
  · intro h
    unfold densify_to_subsegments
    rw [if_pos h]
  · intro p
    have h0 : lineLength [p, p] = 0 := by
      show eucDist p p + lineLength [p] = 0
      rw [eucDist_self]
      norm_num
      rfl
    unfold densify_to_subsegments
    rw [if_pos h0]
  · intro hT
    refine ⟨densify_structure c L hT, densify_length c L hT, rfl, ?_⟩
    intro i hi
    have e1 : (i : ℝ) / (cutCount c L : ℝ) * lineLength c
        = (i : ℝ) * (lineLength c / (cutCount c L : ℝ)) := by ring
    have e2 : ((i : ℝ) + 1) / (cutCount c L : ℝ) * lineLength c
        = ((i : ℝ) + 1) * (lineLength c / (cutCount c L : ℝ)) := by ring
    unfold cutPiece
    rw [e1, e2]

theorem lineLength_pair : lineLength [((0 : ℝ), (0 : ℝ)), ((3 : ℝ), (0 : ℝ))] = 3 := by
  have h9 : eucDist ((0 : ℝ), (0 : ℝ)) ((3 : ℝ), (0 : ℝ)) = 3 := by
    unfold eucDist
    norm_num
    rw [show (9 : ℝ) = 3 ^ 2 by norm_num]
    exact Real.sqrt_sq (by norm_num)
  show eucDist ((0 : ℝ), (0 : ℝ)) ((3 : ℝ), (0 : ℝ)) + lineLength [((3 : ℝ), (0 : ℝ))] = 3
  rw [h9]
  show (3 : ℝ) + 0 = 3
  norm_num

theorem claim_C3_witness :
    (densify_to_subsegments [((0 : ℝ), (0 : ℝ)), ((3 : ℝ), (0 : ℝ))] 1).length = 3 := by
  have h := (claim_C3 [((0 : ℝ), (0 : ℝ)), ((3 : ℝ), (0 : ℝ))] 1 (by norm_num)).2.2
    (by rw [lineLength_pair]; norm_num)
  rw [h.2.1]
  unfold cutCount
  rw [lineLength_pair]
  norm_num

/-- C4: for `T > 0` and `L > 0` the densified subsegments exactly reconstruct
the chain: each triple's origin/destination equal its sub-chain's first/last
vertex, consecutive sub-chains share an endpoint, the first starts at the
chain's first vertex, the last ends at its last vertex, and the sub-chain
lengths sum to `T` within `1e-3`. -/
theorem claim_C4 (c : List Pt) (L : ℝ) (hL : 0 < L) (hT : 0 < lineLength c) :
    (∀ t ∈ densify_to_subsegments c L,
        t.1 = t.2.2.headD ((0 : ℝ), (0 : ℝ)) ∧ t.2.1 = t.2.2.getLastD ((0 : ℝ), (0 : ℝ)))
    ∧ (∀ (i : ℕ) (t t' : Pt × Pt × List Pt),
        (densify_to_subsegments c L).get? i = some t →
        (densify_to_subsegments c L).get? (i + 1) = some t' →
        t.2.2.getLastD ((0 : ℝ), (0 : ℝ)) = t'.2.2.headD ((0 : ℝ), (0 : ℝ)))
    ∧ (∀ t : Pt × Pt × List Pt, (densify_to_subsegments c L).head? = some t →
        t.2.2.headD ((0 : ℝ), (0 : ℝ)) = c.headD ((0 : ℝ), (0 : ℝ)))
    ∧ (∀ t : Pt × Pt × List Pt, (densify_to_subsegments c L).getLast? = some t →
        t.2.2.getLastD ((0 : ℝ), (0 : ℝ)) = c.getLastD ((0 : ℝ), (0 : ℝ)))
    ∧ |((densify_to_subsegments c L).map (fun t => lineLength t.2.2)).sum - lineLength c|
        ≤ 1e-3 := by
  have hne : c ≠ [] := by
    intro h
    rw [h] at hT
    simp [lineLength] at hT
  have hN : 0 < cutCount c L := cutCount_pos c L
  have hNR : (0 : ℝ) < (cutCount c L : ℝ) := cutCount_cast_pos c L
  refine ⟨?_, ?_, ?_, ?_, ?_⟩
  · intro t ht
    rw [densify_structure c L hT, List.mem_map] at ht
    obtain ⟨i, hi, rfl⟩ := ht
    exact ⟨rfl, rfl⟩
  · intro i t t' h1 h2
    have hlt : i + 1 < (densify_to_subsegments c L).length := by
      obtain ⟨hh, _⟩ := List.get?_eq_some.mp h2
      exact hh
    rw [densify_length c L hT] at hlt
    rw [densify_get? c L hT (i + 1) hlt] at h2
    rw [densify_get? c L hT i (by omega)] at h1
    have ht : t = ((cutPiece c L i).headD ((0 : ℝ), (0 : ℝ)),
        (cutPiece c L i).getLastD ((0 : ℝ), (0 : ℝ)), cutPiece c L i) :=
      (Option.some.inj h1).symm
    have ht' : t' = ((cutPiece c L (i + 1)).headD ((0 : ℝ), (0 : ℝ)),
        (cutPiece c L (i + 1)).getLastD ((0 : ℝ), (0 : ℝ)), cutPiece c L (i + 1)) :=
      (Option.some.inj h2).symm
    rw [ht, ht']
    show (cutPiece c L i).getLastD ((0 : ℝ), (0 : ℝ))
        = (cutPiece c L (i + 1)).headD ((0 : ℝ), (0 : ℝ))
    unfold cutPiece
    rw [substring_getLastD, substring_headD]
    congr 1
    push_cast
    ring
  · intro t h
    rw [head?_eq_get?0, densify_get? c L hT 0 hN] at h
    have ht : t = ((cutPiece c L 0).headD ((0 : ℝ), (0 : ℝ)),
        (cutPiece c L 0).getLastD ((0 : ℝ), (0 : ℝ)), cutPiece c L 0) :=
      (Option.some.inj h).symm
    rw [ht]
    show (cutPiece c L 0).headD ((0 : ℝ), (0 : ℝ)) = c.headD ((0 : ℝ), (0 : ℝ))
    unfold cutPiece
    rw [substring_headD]
    have harg : ((0 : ℕ) : ℝ) / (cutCount c L : ℝ) * lineLength c = 0 := by
      norm_num
    rw [harg, interpolate_zero_headD c hne]
  · intro t h
    rw [List.getLast?_eq_get?, densify_length c L hT] at h
    have hmem : cutCount c L - 1 < cutCount c L := by omega
    rw [densify_get? c L hT (cutCount c L - 1) hmem] at h
    have ht : t = ((cutPiece c L (cutCount c L - 1)).headD ((0 : ℝ), (0 : ℝ)),
        (cutPiece c L (cutCount c L - 1)).getLastD ((0 : ℝ), (0 : ℝ)),
        cutPiece c L (cutCount c L - 1)) :=
      (Option.some.inj h).symm
    rw [ht]
    show (cutPiece c L (cutCount c L - 1)).getLastD ((0 : ℝ), (0 : ℝ))
        = c.getLastD ((0 : ℝ), (0 : ℝ))
    unfold cutPiece
    rw [substring_getLastD]
    have hcast : ((cutCount c L - 1 : ℕ) : ℝ) = (cutCount c L : ℝ) - 1 := by
      have h1 : (1 : ℕ) ≤ cutCount c L := hN
      push_cast [h1]
      ring
    have harg : (((cutCount c L - 1 : ℕ) : ℝ) + 1) / (cutCount c L : ℝ) * lineLength c
        = lineLength c := by
      rw [hcast]
      have hne0 : (cutCount c L : ℝ) ≠ 0 := ne_of_gt hNR
      field_simp
    rw [harg, interpolate_full c hne]
  · rw [densify_structure c L hT, List.map_map]
    have hcongr : (List.range (cutCount c L)).map
        ((fun t : Pt × Pt × List Pt => lineLength t.2.2) ∘ (fun i =>
          ((cutPiece c L i).headD ((0 : ℝ), (0 : ℝ)),
           (cutPiece c L i).getLastD ((0 : ℝ), (0 : ℝ)),
           cutPiece c L i)))
        = (List.range (cutCount c L)).map
            (fun _ => lineLength c / (cutCount c L : ℝ)) := by
      apply List.map_congr_left
      intro i hi
      show lineLength (cutPiece c L i) = lineLength c / (cutCount c L : ℝ)
      exact cutPiece_length c L hT i hi
    rw [hcongr, List.map_const', List.length_range, List.sum_replicate]
    have hsum : (cutCount c L) • (lineLength c / (cutCount c L : ℝ)) = lineLength c := by
      rw [nsmul_eq_mul]
      field_simp
    rw [hsum]
    simp
    norm_num

theorem claim_C4_witness :
    |((densify_to_subsegments [((0 : ℝ), (0 : ℝ)), ((3 : ℝ), (0 : ℝ))] 1).map
        (fun t => lineLength t.2.2)).sum
      - lineLength [((0 : ℝ), (0 : ℝ)), ((3 : ℝ), (0 : ℝ))]| ≤ 1e-3 :=
  (claim_C4 [((0 : ℝ), (0 : ℝ)), ((3 : ℝ), (0 : ℝ))] 1 (by norm_num)
    (by rw [lineLength_pair]; norm_num)).2.2.2.2

theorem pyFloat_nan : pyFloat? (String.mk "nans".toList.dropLast) = some PyFloat.nan := by
  have hcore : pyFloatCore (String.mk "nans".toList.dropLast).toList = some PyCore.nan := by
    decide
  unfold pyFloat?
  rw [hcore]
  rfl

/-- C6(counterexample): the duration `"nans"` ends in `"s"`, its prefix
`"nan"` parses under Python `float()` (to `nan`), and Python's `nan <= 0`
test is false — yet the estimated speed is undefined (`nan`), refuting the
claimed "undefined exactly when missing, not ending in s, unparsable, or
parsing `≤ 0`". -/
theorem claim_C6_counterexample :
    endsWithS "nans" = true
    ∧ pyFloat? (String.mk "nans".toList.dropLast) = some PyFloat.nan
    ∧ pyFloatLe0 PyFloat.nan = false
    ∧ estimate_speed_kmh 100 (some "nans") = none := by
  refine ⟨by decide, pyFloat_nan, rfl, ?_⟩
  simp only [estimate_speed_kmh]
  rw [if_neg (by decide), pyFloat_nan]
  rfl

/-- C6(amended): the estimated speed is `d / sec * 3.6` when the seconds
value (stripping the trailing `"s"`, parsed by Python `float()`) is finite
and positive, and `0.0` when it is `+inf`; it is undefined (`none`, the model
of `nan`) exactly when the duration is missing, does not end in `"s"`, fails
to parse, or parses to a value for which either Python's `sec <= 0` test
holds (a nonpositive finite value, or `-inf`) or the value is `nan` (there
`nan <= 0` is false but the division still yields `nan`). -/
theorem claim_C6_amended (d : ℝ) (dur : Option String) :
    (∀ s : String, dur = some s → endsWithS s →
       ∀ q : ℚ, pyFloat? (String.mk s.toList.dropLast) = some (PyFloat.finite q) →
         0 < q → estimate_speed_kmh d dur = some (d / (q : ℝ) * 3.6))
    ∧ (∀ s : String, dur = some s → endsWithS s →
         pyFloat? (String.mk s.toList.dropLast) = some PyFloat.inf →
         estimate_speed_kmh d dur = some 0)
    ∧ (estimate_speed_kmh d dur = none ↔
        dur = none ∨ ∃ s : String, dur = some s ∧
          (¬ endsWithS s
           ∨ pyFloat? (String.mk s.toList.dropLast) = none
           ∨ ∃ pf : PyFloat, pyFloat? (String.mk s.toList.dropLast) = some pf
               ∧ (pyFloatLe0 pf = true ∨ pf = PyFloat.nan))) := by
  cases dur with
  | none =>
      refine ⟨?_, ?_, ?_⟩
      · intro s h
        exact Option.noConfusion h
      · intro s h
        exact Option.noConfusion h
      · constructor
        · intro _
          exact Or.inl rfl
        · intro _
          rfl
  | some s =>
      by_cases hcond : s = "" ∨ ¬ endsWithS s
      · have hnone : estimate_speed_kmh d (some s) = none := by
          simp only [estimate_speed_kmh]
          rw [if_pos hcond]
        have hnoend : ¬ endsWithS s := by
          rcases hcond with h1 | h2
          · subst h1
            decide
          · exact h2
        refine ⟨?_, ?_, ?_⟩
        · intro s' hs' hends
          rw [Option.some.inj hs'] at hnoend
          exact absurd hends hnoend
        · intro s' hs' hends
          rw [Option.some.inj hs'] at hnoend
          exact absurd hends hnoend
        · rw [hnone]
          constructor
          · intro _
            exact Or.inr ⟨s, rfl, Or.inl hnoend⟩
          · intro _
            rfl
      · push_neg at hcond
        obtain ⟨hs1, hs2⟩ := hcond
        have hif : ¬ (s = "" ∨ ¬ endsWithS s) := by
          rintro (h | h)
          · exact hs1 h
          · exact h hs2
        cases hp : pyFloat? (String.mk s.toList.dropLast) with
        | none =>
            have hnone : estimate_speed_kmh d (some s) = none := by
              simp only [estimate_speed_kmh]
              rw [if_neg hif, hp]
            refine ⟨?_, ?_, ?_⟩
            · intro s' hs' _ q hsec _
              rw [← Option.some.inj hs'] at hsec
              rw [hp] at hsec
              exact Option.noConfusion hsec
            · intro s' hs' _ hsec
              rw [← Option.some.inj hs'] at hsec
              rw [hp] at hsec
              exact Option.noConfusion hsec
            · rw [hnone]
              constructor
              · intro _
                exact Or.inr ⟨s, rfl, Or.inr (Or.inl hp)⟩
              · intro _
                rfl
        | some sec =>
            cases sec with
            | finite q =>
                by_cases hle : q ≤ 0
                · have hleT : pyFloatLe0 (PyFloat.finite q) = true := by
                    simp only [pyFloatLe0]
                    exact decide_eq_true hle
                  have hnone : estimate_speed_kmh d (some s) = none := by
                    simp only [estimate_speed_kmh]
                    rw [if_neg hif, hp]
                    show (if pyFloatLe0 (PyFloat.finite q) = true then none
                        else some (d / (q : ℝ) * 3.6)) = none
                    rw [hleT]
                    simp
                  refine ⟨?_, ?_, ?_⟩
                  · intro s' hs' _ q' hsec' hpos'
                    rw [← Option.some.inj hs'] at hsec'
                    rw [hp] at hsec'
                    have hq : q = q' := by
                      have h1 := Option.some.inj hsec'
                      injection h1
                    rw [← hq] at hpos'
                    exact absurd hle (not_le.mpr hpos')
                  · intro s' hs' _ hsec'
                    rw [← Option.some.inj hs'] at hsec'
                    rw [hp] at hsec'
                    exact PyFloat.noConfusion (Option.some.inj hsec')
                  · rw [hnone]
                    constructor
                    · intro _
                      exact Or.inr ⟨s, rfl, Or.inr (Or.inr
                        ⟨PyFloat.finite q, hp, Or.inl hleT⟩)⟩
                    · intro _
                      rfl
                · have hleF : pyFloatLe0 (PyFloat.finite q) = false := by
                    simp only [pyFloatLe0]
                    exact decide_eq_false hle
                  have hval : estimate_speed_kmh d (some s)
                      = some (d / (q : ℝ) * 3.6) := by
                    simp only [estimate_speed_kmh]
                    rw [if_neg hif, hp]
                    show (if pyFloatLe0 (PyFloat.finite q) = true then none
                        else some (d / (q : ℝ) * 3.6)) = some (d / (q : ℝ) * 3.6)
                    rw [hleF]
                    simp
                  refine ⟨?_, ?_, ?_⟩
                  · intro s' hs' _ q' hsec' _
                    rw [← Option.some.inj hs'] at hsec'
                    rw [hp] at hsec'
                    have hq : q = q' := by
                      have h1 := Option.some.inj hsec'
                      injection h1
                    rw [← hq]
                    exact hval
                  · intro s' hs' _ hsec'
                    rw [← Option.some.inj hs'] at hsec'
                    rw [hp] at hsec'
                    exact PyFloat.noConfusion (Option.some.inj hsec')
                  · rw [hval]
                    constructor
                    · intro h
                      exact Option.noConfusion h
                    · rintro (h | ⟨s', hs', h3⟩)
                      · exact Option.noConfusion h
                      · rw [← Option.some.inj hs'] at h3
                        rcases h3 with h3 | h3 | ⟨pf, hpf, hor⟩
                        · exact absurd hs2 h3
                        · rw [hp] at h3
                          exact Option.noConfusion h3
                        · rw [hp] at hpf
                          have hpf2 := Option.some.inj hpf
                          rcases hor with hor | hor
                          · rw [← hpf2, hleF] at hor
                            exact Bool.noConfusion hor
                          · rw [hor] at hpf2
                            exact PyFloat.noConfusion hpf2
            | inf =>
                have hval : estimate_speed_kmh d (some s) = some 0 := by
                  simp only [estimate_speed_kmh]
                  rw [if_neg hif, hp]
                  rfl
                refine ⟨?_, ?_, ?_⟩
                · intro s' hs' _ q' hsec' _
                  rw [← Option.some.inj hs'] at hsec'
                  rw [hp] at hsec'
                  exact PyFloat.noConfusion (Option.some.inj hsec')
                · intro s' hs' _ _
                  exact hval
                · rw [hval]
                  constructor
                  · intro h
                    exact Option.noConfusion h
                  · rintro (h | ⟨s', hs', h3⟩)
                    · exact Option.noConfusion h
                    · rw [← Option.some.inj hs'] at h3
                      rcases h3 with h3 | h3 | ⟨pf, hpf, hor⟩
                      · exact absurd hs2 h3
                      · rw [hp] at h3
                        exact Option.noConfusion h3
                      · rw [hp] at hpf
                        have hpf2 := Option.some.inj hpf
                        rcases hor with hor | hor
                        · rw [← hpf2] at hor
                          exact absurd hor (by decide)
                        · rw [hor] at hpf2
                          exact PyFloat.noConfusion hpf2
            | neginf =>
                have hnone : estimate_speed_kmh d (some s) = none := by
                  simp only [estimate_speed_kmh]
                  rw [if_neg hif, hp]
                  rfl
                refine ⟨?_, ?_, ?_⟩
                · intro s' hs' _ q' hsec' _
                  rw [← Option.some.inj hs'] at hsec'
                  rw [hp] at hsec'
                  exact PyFloat.noConfusion (Option.some.inj hsec')
                · intro s' hs' _ hsec'
                  rw [← Option.some.inj hs'] at hsec'
                  rw [hp] at hsec'
                  exact PyFloat.noConfusion (Option.some.inj hsec')
                · rw [hnone]
                  constructor
                  · intro _
                    exact Or.inr ⟨s, rfl, Or.inr (Or.inr
                      ⟨PyFloat.neginf, hp, Or.inl rfl⟩)⟩
                  · intro _
                    rfl
            | nan =>
                have hnone : estimate_speed_kmh d (some s) = none := by
                  simp only [estimate_speed_kmh]
                  rw [if_neg hif, hp]
                  rfl
                refine ⟨?_, ?_, ?_⟩
                · intro s' hs' _ q' hsec' _
                  rw [← Option.some.inj hs'] at hsec'
                  rw [hp] at hsec'
                  exact PyFloat.noConfusion (Option.some.inj hsec')
                · intro s' hs' _ hsec'
                  rw [← Option.some.inj hs'] at hsec'
                  rw [hp] at hsec'
                  exact PyFloat.noConfusion (Option.some.inj hsec')
                · rw [hnone]
                  constructor
                  · intro _
                    exact Or.inr ⟨s, rfl, Or.inr (Or.inr
                      ⟨PyFloat.nan, hp, Or.inr rfl⟩)⟩
                  · intro _
                    rfl

theorem pyFloat_672 : pyFloat? (String.mk "67.2s".toList.dropLast)
    = some (PyFloat.finite (336 / 5)) := by
  have hcore : pyFloatCore (String.mk "67.2s".toList.dropLast).toList
      = some (PyCore.finite 672 (-1)) := by
    decide
  unfold pyFloat?
  rw [hcore]
  show some (toPyFloat (PyCore.finite 672 (-1))) = some (PyFloat.finite (336 / 5))
  simp only [toPyFloat]
  norm_num

theorem pyFloat_1e2 : pyFloat? (String.mk "1e2s".toList.dropLast)
    = some (PyFloat.finite 100) := by
  have hcore : pyFloatCore (String.mk "1e2s".toList.dropLast).toList
      = some (PyCore.finite 1 2) := by
    decide
  unfold pyFloat?
  rw [hcore]
  show some (toPyFloat (PyCore.finite 1 2)) = some (PyFloat.finite 100)
  simp only [toPyFloat]
  norm_num

theorem claim_C6_amended_witness :
    pyFloat? (String.mk "1e2s".toList.dropLast) = some (PyFloat.finite 100)
    ∧ (0 : ℚ) < 100
    ∧ endsWithS "1e2s" = true
    ∧ estimate_speed_kmh 350 (some "1e2s") = some (350 / ((100 : ℚ) : ℝ) * 3.6) := by
  refine ⟨pyFloat_1e2, by norm_num, by decide, ?_⟩
  exact (claim_C6_amended 350 (some "1e2s")).1 "1e2s" rfl (by decide) 100
    pyFloat_1e2 (by norm_num)

/-- C7: the display color ladder is evaluated in order with inclusive lower
bounds: undefined speed is gray, `≥ 45` green, `≥ 30` amber, `≥ 15` orange,
below red; in particular 45.0 is green, 44.9 and 30.0 amber, 14.9 red. -/
theorem claim_C7 :
    grade_color none = "#888888"
    ∧ (∀ v : ℝ, 45 ≤ v → grade_color (some v) = "#2E7D32")
    ∧ (∀ v : ℝ, 30 ≤ v → v < 45 → grade_color (some v) = "#F9A825")
    ∧ (∀ v : ℝ, 15 ≤ v → v < 30 → grade_color (some v) = "#EF6C00")
    ∧ (∀ v : ℝ, v < 15 → grade_color (some v) = "#C62828")
    ∧ grade_color (some 45) = "#2E7D32"
    ∧ grade_color (some (449 / 10)) = "#F9A825"
    ∧ grade_color (some 30) = "#F9A825"
    ∧ grade_color (some (149 / 10)) = "#C62828" := by
  have hgen : ∀ v : ℝ,
      (45 ≤ v → grade_color (some v) = "#2E7D32")
      ∧ (30 ≤ v → v < 45 → grade_color (some v) = "#F9A825")
      ∧ (15 ≤ v → v < 30 → grade_color (some v) = "#EF6C00")
      ∧ (v < 15 → grade_color (some v) = "#C62828") := by
    intro v
    refine ⟨?_, ?_, ?_, ?_⟩
    · intro h
      simp only [grade_color]
      rw [if_pos h]
    · intro h1 h2
      simp only [grade_color]
      rw [if_neg (by linarith), if_pos h1]
    · intro h1 h2
      simp only [grade_color]
      rw [if_neg (by linarith), if_neg (by linarith), if_pos h1]
    · intro h
      simp only [grade_color]
      rw [if_neg (by linarith), if_neg (by linarith), if_neg (by linarith)]
  refine ⟨rfl, fun v => (hgen v).1, fun v => (hgen v).2.1, fun v => (hgen v).2.2.1,
    fun v => (hgen v).2.2.2, ?_, ?_, ?_, ?_⟩
  · exact (hgen 45).1 (by norm_num)
  · exact (hgen (449 / 10)).2.1 (by norm_num) (by norm_num)
  · exact (hgen 30).2.1 (by norm_num) (by norm_num)
  · exact (hgen (149 / 10)).2.2.2 (by norm_num)

theorem claim_C7_witness :
    (45 : ℝ) ≤ 46 ∧ grade_color (some 46) = "#2E7D32" :=
  ⟨by norm_num, claim_C7.2.1 46 (by norm_num)⟩

/-! ### Rounding evaluation lemmas -/

theorem rndHalfToEven_intCast (n : ℤ) : rndHalfToEven ((n : ℝ)) = n := by
  unfold rndHalfToEven
  rw [Int.floor_intCast]
  rw [if_neg (by norm_num), round_intCast]

theorem round1_intCast (n : ℤ) : round1 ((n : ℝ)) = (n : ℝ) := by
  unfold round1
  have h : (10 : ℝ) * (n : ℝ) = ((10 * n : ℤ) : ℝ) := by push_cast; ring
  rw [h, rndHalfToEven_intCast]
  push_cast
  ring

theorem round1_quarter : round1 (1 / 4 : ℝ) = 1 / 5 := by
  unfold round1 rndHalfToEven
  have h10 : (10 : ℝ) * (1 / 4) = 5 / 2 := by norm_num
  rw [h10]
  have hf : ⌊(5 / 2 : ℝ)⌋ = 2 := by
    apply Int.floor_eq_iff.mpr
    constructor <;> norm_num
  rw [hf]
  rw [if_pos (by norm_num : (5 / 2 : ℝ) - ((2 : ℤ) : ℝ) = 1 / 2)]
  rw [if_pos (by decide : Even (2 : ℤ))]
  norm_num

theorem round1_1875 : round1 (1875 / 100 : ℝ) = 94 / 5 := by
  unfold round1 rndHalfToEven
  have h10 : (10 : ℝ) * (1875 / 100) = 375 / 2 := by norm_num
  rw [h10]
  have hf : ⌊(375 / 2 : ℝ)⌋ = 187 := by
    apply Int.floor_eq_iff.mpr
    constructor <;> norm_num
  rw [hf]
  rw [if_pos (by norm_num : (375 / 2 : ℝ) - ((187 : ℤ) : ℝ) = 1 / 2)]
  rw [if_neg (by decide : ¬ Even (187 : ℤ))]
  norm_num

theorem roundHalfUp1_quarter : roundHalfUp1 (1 / 4 : ℝ) = 3 / 10 := by
  unfold roundHalfUp1
  have h10 : (10 : ℝ) * (1 / 4) = 5 / 2 := by norm_num
  rw [h10, round_eq]
  have h3 : (5 / 2 : ℝ) + 1 / 2 = ((3 : ℤ) : ℝ) := by norm_num
  rw [h3, Int.floor_intCast]
  norm_num

theorem roundHalfUp1_1875 : roundHalfUp1 (1875 / 100 : ℝ) = 94 / 5 := by
  unfold roundHalfUp1
  have h10 : (10 : ℝ) * (1875 / 100) = 375 / 2 := by norm_num
  rw [h10, round_eq]
  have hf : ⌊(375 / 2 : ℝ) + 1 / 2⌋ = 188 := by
    apply Int.floor_eq_iff.mpr
    constructor <;> norm_num
  rw [hf]
  norm_num

/-! ### Reconciliation lemmas -/

theorem annotateSub_eq_none (k : ℕ) (s : SubPair) (svals : List SVal)
    (h : svals.find? (fun sv => sv.oi == some (k : ℤ) && sv.di == some (k : ℤ)) = none) :
    annotateSub k s svals
      = { geometry := s.geom
          speed_kmh := none
          distance_m := round1 (lineLength s.geom)
          duration := some none
          color := grade_color none } := by
  unfold annotateSub
  rw [h]

theorem annotateSub_eq_some (k : ℕ) (s : SubPair) (svals : List SVal) (sv : SVal)
    (h : svals.find? (fun sv => sv.oi == some (k : ℤ) && sv.di == some (k : ℤ)) = some sv) :
    annotateSub k s svals
      = { geometry := s.geom
          speed_kmh := Option.map round1 sv.spd
          distance_m := round1 (if sv.dist ≤ 0 then lineLength s.geom else sv.dist)
          duration := some sv.dur
          color := grade_color sv.spd } := by
  unfold annotateSub
  rw [h]

theorem find?_mkSpeedVals (cells : List MatrixCell) (k : ℕ) :
    (mkSpeedVals cells).find? (fun sv => sv.oi == some (k : ℤ) && sv.di == some (k : ℤ))
      = (cells.find? (fun cell => cell.originIndex == some (k : ℤ)
          && cell.destinationIndex == some (k : ℤ))).map speedVal := by
  induction cells with
  | nil => rfl
  | cons c t ih =>
      have hms : mkSpeedVals (c :: t) = speedVal c :: mkSpeedVals t := rfl
      have hpred : ((speedVal c).oi == some (k : ℤ) && (speedVal c).di == some (k : ℤ))
          = (c.originIndex == some (k : ℤ) && c.destinationIndex == some (k : ℤ)) := rfl
      rw [hms]
      cases h : (c.originIndex == some (k : ℤ) && c.destinationIndex == some (k : ℤ)) with
      | true =>
          have h1 : List.find? (fun sv => sv.oi == some (k : ℤ) && sv.di == some (k : ℤ))
              (speedVal c :: mkSpeedVals t) = some (speedVal c) :=
            List.find?_cons_of_pos _ (by rw [hpred]; exact h)
          have h2 : List.find? (fun cell => cell.originIndex == some (k : ℤ)
              && cell.destinationIndex == some (k : ℤ)) (c :: t) = some c :=
            List.find?_cons_of_pos _ h
          rw [h1, h2]
          rfl
      | false =>
          have h1 : List.find? (fun sv => sv.oi == some (k : ℤ) && sv.di == some (k : ℤ))
              (speedVal c :: mkSpeedVals t)
              = List.find? (fun sv => sv.oi == some (k : ℤ) && sv.di == some (k : ℤ))
                  (mkSpeedVals t) :=
            List.find?_cons_of_neg _ (by rw [hpred, h]; simp)
          have h2 : List.find? (fun cell => cell.originIndex == some (k : ℤ)
              && cell.destinationIndex == some (k : ℤ)) (c :: t)
              = List.find? (fun cell => cell.originIndex == some (k : ℤ)
                  && cell.destinationIndex == some (k : ℤ)) t :=
            List.find?_cons_of_neg _ (by rw [h]; simp)
          rw [h1, h2]
          exact ih

theorem reconcileAux_get? (svals : List SVal) :
    ∀ (batch : List SubPair) (k j : ℕ),
    (reconcileAux svals k batch).get? j
      = (batch.get? j).map (fun s => annotateSub (k + j) s svals) := by
  intro batch
  induction batch with
  | nil => intro k j; simp [reconcileAux]
  | cons s t ih =>
      intro k j
      cases j with
      | zero => simp [reconcileAux]
      | succ j' =>
          show (reconcileAux svals (k + 1) t).get? j' = _
          rw [ih (k + 1) j']
          have : k + 1 + j' = k + (j' + 1) := by omega
          rw [this]
          rfl

theorem reconcileBatch_get? (batch : List SubPair) (cells : List MatrixCell) (j : ℕ) :
    (reconcileBatch batch cells).get? j
      = (batch.get? j).map (fun s => annotateSub j s (mkSpeedVals cells)) := by
  unfold reconcileBatch
  rw [reconcileAux_get? (mkSpeedVals cells) batch 0 j]
  simp

/-- C1(amended): a subsegment with NO matching cell gets a null speed, a
present-but-null duration key and its rounded geometric length; a subsegment
whose matching cell has status ≠ "OK" gets a null speed but KEEPS the cell's
duration string and, when positive, the cell's reported distance (geometric
fallback only when the reported distance is ≤ 0); reconciliation is
per-subsegment, so any subsegment with a successful cell still receives its
computed speed. -/
theorem claim_C1_amended (batch : List SubPair) (cells : List MatrixCell) (k : ℕ) (s : SubPair) :
    ((mkSpeedVals cells).find?
        (fun sv => sv.oi == some (k : ℤ) && sv.di == some (k : ℤ)) = none →
      annotateSub k s (mkSpeedVals cells)
        = { geometry := s.geom
            speed_kmh := none
            distance_m := round1 (lineLength s.geom)
            duration := some none
            color := "#888888" })
    ∧ (∀ cell : MatrixCell,
        cells.find? (fun c => c.originIndex == some (k : ℤ)
          && c.destinationIndex == some (k : ℤ)) = some cell →
        cell.status ≠ some "OK" →
        (annotateSub k s (mkSpeedVals cells)).speed_kmh = none
        ∧ (annotateSub k s (mkSpeedVals cells)).duration = some cell.duration
        ∧ (annotateSub k s (mkSpeedVals cells)).distance_m
            = round1 (if cell.distanceMeters.getD 0 ≤ 0 then lineLength s.geom
                      else cell.distanceMeters.getD 0))
    ∧ (∀ (j : ℕ) (s' : SubPair), batch.get? j = some s' →
        (reconcileBatch batch cells).get? j
          = some (annotateSub j s' (mkSpeedVals cells)))
    ∧ (∀ (j : ℕ) (s' : SubPair) (cell : MatrixCell) (v : ℝ),
        batch.get? j = some s' →
        cells.find? (fun c => c.originIndex == some (j : ℤ)
          && c.destinationIndex == some (j : ℤ)) = some cell →
        cell.status = some "OK" →
        estimate_speed_kmh (cell.distanceMeters.getD 0) cell.duration = some v →
        ∃ f, (reconcileBatch batch cells).get? j = some f
          ∧ f.speed_kmh = some (round1 v)) := by
  refine ⟨?_, ?_, ?_, ?_⟩
  · intro h
    exact annotateSub_eq_none k s (mkSpeedVals cells) h
  · intro cell hfind hst
    have hsv := find?_mkSpeedVals cells k
    rw [hfind] at hsv
    have hann := annotateSub_eq_some k s (mkSpeedVals cells) (speedVal cell) hsv
    have hspd : (speedVal cell).spd = none := by
      unfold speedVal
      simp only []
      rw [if_pos hst]
    refine ⟨?_, ?_, ?_⟩
    · rw [hann]
      show Option.map round1 (speedVal cell).spd = none
      rw [hspd]
      rfl
    · rw [hann]
      rfl
    · rw [hann]
      rfl
  · intro j s' hget
    rw [reconcileBatch_get? batch cells j, hget]
    rfl
  · intro j s' cell v hget hfind hst hest
    refine ⟨annotateSub j s' (mkSpeedVals cells), ?_, ?_⟩
    · rw [reconcileBatch_get? batch cells j, hget]
      rfl
    · have hsv := find?_mkSpeedVals cells j
      rw [hfind] at hsv
      have hann := annotateSub_eq_some j s' (mkSpeedVals cells) (speedVal cell) hsv
      have hspd : (speedVal cell).spd = some v := by
        unfold speedVal
        simp only []
        rw [if_neg (by rw [hst]; simp)]
        exact hest
      rw [hann]
      show Option.map round1 (speedVal cell).spd = some (round1 v)
      rw [hspd]
      rfl

theorem claim_C1_amended_witness :
    annotateSub 0
        ⟨((0 : ℝ), (0 : ℝ)), ((3 : ℝ), (0 : ℝ)), [((0 : ℝ), (0 : ℝ)), ((3 : ℝ), (0 : ℝ))]⟩
        (mkSpeedVals [])
      = { geometry := [((0 : ℝ), (0 : ℝ)), ((3 : ℝ), (0 : ℝ))]
          speed_kmh := none
          distance_m := round1 (lineLength [((0 : ℝ), (0 : ℝ)), ((3 : ℝ), (0 : ℝ))])
          duration := some none
          color := "#888888" } :=
  (claim_C1_amended [] [] 0
    ⟨((0 : ℝ), (0 : ℝ)), ((3 : ℝ), (0 : ℝ)), [((0 : ℝ), (0 : ℝ)), ((3 : ℝ), (0 : ℝ))]⟩).1 rfl

theorem round1_100 : round1 (100 : ℝ) = 100 := by
  rw [show (100 : ℝ) = ((100 : ℤ) : ℝ) by norm_num, round1_intCast]

theorem round1_3 : round1 (3 : ℝ) = 3 := by
  rw [show (3 : ℝ) = ((3 : ℤ) : ℝ) by norm_num, round1_intCast]

theorem claim_C1_counterexample :
    ∃ f, (reconcileBatch
        [⟨((0 : ℝ), (0 : ℝ)), ((3 : ℝ), (0 : ℝ)), [((0 : ℝ), (0 : ℝ)), ((3 : ℝ), (0 : ℝ))]⟩]
        [⟨some 0, some 0, some "NO_ROUTE", some (100 : ℝ), some "5s"⟩]).get? 0 = some f
      ∧ f.speed_kmh = none
      ∧ f.duration = some (some "5s")
      ∧ f.distance_m = 100
      ∧ f.distance_m ≠ round1 (lineLength [((0 : ℝ), (0 : ℝ)), ((3 : ℝ), (0 : ℝ))]) := by
  have hcell : List.find? (fun c : MatrixCell => c.originIndex == some ((0 : ℕ) : ℤ)
      && c.destinationIndex == some ((0 : ℕ) : ℤ))
      [(⟨some 0, some 0, some "NO_ROUTE", some (100 : ℝ), some "5s"⟩ : MatrixCell)]
      = some (⟨some 0, some 0, some "NO_ROUTE", some (100 : ℝ), some "5s"⟩ : MatrixCell) :=
    List.find?_cons_of_pos _ (by decide)
  have hsv := find?_mkSpeedVals [⟨some 0, some 0, some "NO_ROUTE", some (100 : ℝ), some "5s"⟩] 0
  rw [hcell] at hsv
  have hann := annotateSub_eq_some 0
    ⟨((0 : ℝ), (0 : ℝ)), ((3 : ℝ), (0 : ℝ)), [((0 : ℝ), (0 : ℝ)), ((3 : ℝ), (0 : ℝ))]⟩
    (mkSpeedVals [⟨some 0, some 0, some "NO_ROUTE", some (100 : ℝ), some "5s"⟩])
    (speedVal ⟨some 0, some 0, some "NO_ROUTE", some (100 : ℝ), some "5s"⟩) hsv
  have hspd : (speedVal ⟨some 0, some 0, some "NO_ROUTE", some (100 : ℝ), some "5s"⟩).spd
      = none := by
    unfold speedVal
    simp only []
    rw [if_pos (by simp)]
  refine ⟨annotateSub 0
    ⟨((0 : ℝ), (0 : ℝ)), ((3 : ℝ), (0 : ℝ)), [((0 : ℝ), (0 : ℝ)), ((3 : ℝ), (0 : ℝ))]⟩
    (mkSpeedVals [⟨some 0, some 0, some "NO_ROUTE", some (100 : ℝ), some "5s"⟩]), ?_, ?_, ?_, ?_, ?_⟩
  · rw [reconcileBatch_get?]
    rfl
  · rw [hann]
    show Option.map round1 (speedVal ⟨some 0, some 0, some "NO_ROUTE", some (100 : ℝ),
      some "5s"⟩).spd = none
    rw [hspd]
    rfl
  · rw [hann]
    rfl
  · rw [hann]
    show round1 (if (100 : ℝ) ≤ 0 then _ else (100 : ℝ)) = 100
    rw [if_neg (by norm_num)]
    exact round1_100
  · rw [hann]
    show round1 (if (100 : ℝ) ≤ 0 then _ else (100 : ℝ)) ≠ _
    rw [if_neg (by norm_num), round1_100, lineLength_pair, round1_3]
    norm_num

/-- C8(amended): on a failed batch request every subsegment of the batch gets
a feature with null speed, its raw (unrounded) geometric length as distance_m,
the neutral gray color, and NO `duration` key at all (the claim expected the
key present with a null value); the loop then continues with the next batch. -/
theorem claim_C8_amended (batch : List SubPair) :
    processBatch batch none = batch.map failFeature
    ∧ (∀ s : SubPair,
        (failFeature s).speed_kmh = none
        ∧ (failFeature s).distance_m = lineLength s.geom
        ∧ (failFeature s).duration = none
        ∧ (failFeature s).color = "#888888"
        ∧ (failFeature s).color = grade_color none)
    ∧ (∀ (oracle : ℕ → Option (List MatrixCell)) (j : ℕ) (rest : List (List SubPair)),
        processAll oracle j (batch :: rest)
          = processBatch batch (oracle j) ++ processAll oracle (j + 1) rest) := by
  refine ⟨rfl, ?_, ?_⟩
  · intro s
    exact ⟨rfl, rfl, rfl, rfl, rfl⟩
  · intro oracle j rest
    rfl

theorem claim_C8_counterexample :
    (processBatch
        [⟨((0 : ℝ), (0 : ℝ)), ((3 : ℝ), (0 : ℝ)), [((0 : ℝ), (0 : ℝ)), ((3 : ℝ), (0 : ℝ))]⟩]
        none).map (fun f => f.duration) = [none]
    ∧ (none : Option (Option String)) ≠ some none := by
  constructor
  · rfl
  · simp

theorem round1_zero : round1 (0 : ℝ) = 0 := by
  rw [show (0 : ℝ) = ((0 : ℤ) : ℝ) by norm_num, round1_intCast]

theorem estimate_350_672 : estimate_speed_kmh 350 (some "67.2s") = some (1875 / 100) := by
  have hle : pyFloatLe0 (PyFloat.finite (336 / 5)) = false := by
    simp only [pyFloatLe0]
    exact decide_eq_false (by norm_num)
  have h : estimate_speed_kmh 350 (some "67.2s")
      = some (350 / ((336 / 5 : ℚ) : ℝ) * 3.6) := by
    simp only [estimate_speed_kmh]
    rw [if_neg (by decide), pyFloat_672]
    show (if pyFloatLe0 (PyFloat.finite (336 / 5)) = true then none
        else some ((350 : ℝ) / ((336 / 5 : ℚ) : ℝ) * 3.6))
      = some ((350 : ℝ) / ((336 / 5 : ℚ) : ℝ) * 3.6)
    rw [hle]
    simp
  rw [h]
  norm_num

theorem claim_C9_counterexample :
    ∃ f, (reconcileBatch
        [⟨((0 : ℝ), (0 : ℝ)), ((3 : ℝ), (0 : ℝ)), [((0 : ℝ), (0 : ℝ)), ((3 : ℝ), (0 : ℝ))]⟩]
        [⟨some 0, some 0, some "OK", some (1 / 4 : ℝ), some "1s"⟩]).get? 0 = some f
      ∧ f.distance_m = 1 / 5
      ∧ roundHalfUp1 (1 / 4) = 3 / 10
      ∧ (1 / 5 : ℝ) ≠ 3 / 10 := by
  have hcell : List.find? (fun c : MatrixCell => c.originIndex == some ((0 : ℕ) : ℤ)
      && c.destinationIndex == some ((0 : ℕ) : ℤ))
      [(⟨some 0, some 0, some "OK", some (1 / 4 : ℝ), some "1s"⟩ : MatrixCell)]
      = some (⟨some 0, some 0, some "OK", some (1 / 4 : ℝ), some "1s"⟩ : MatrixCell) :=
    List.find?_cons_of_pos _ (by decide)
  have hsv := find?_mkSpeedVals [⟨some 0, some 0, some "OK", some (1 / 4 : ℝ), some "1s"⟩] 0
  rw [hcell] at hsv
  have hann := annotateSub_eq_some 0
    ⟨((0 : ℝ), (0 : ℝ)), ((3 : ℝ), (0 : ℝ)), [((0 : ℝ), (0 : ℝ)), ((3 : ℝ), (0 : ℝ))]⟩
    (mkSpeedVals [⟨some 0, some 0, some "OK", some (1 / 4 : ℝ), some "1s"⟩])
    (speedVal ⟨some 0, some 0, some "OK", some (1 / 4 : ℝ), some "1s"⟩) hsv
  refine ⟨annotateSub 0
    ⟨((0 : ℝ), (0 : ℝ)), ((3 : ℝ), (0 : ℝ)), [((0 : ℝ), (0 : ℝ)), ((3 : ℝ), (0 : ℝ))]⟩
    (mkSpeedVals [⟨some 0, some 0, some "OK", some (1 / 4 : ℝ), some "1s"⟩]),
    ?_, ?_, roundHalfUp1_quarter, by norm_num⟩
  · rw [reconcileBatch_get?]
    rfl
  · rw [hann]
    show round1 (if (1 / 4 : ℝ) ≤ 0 then _ else (1 / 4 : ℝ)) = 1 / 5
    rw [if_neg (by norm_num)]
    exact round1_quarter

/-- C9(amended): emitted speed_kmh and distance_m of reconciled features go
through Python's round-half-to-even, not half-up: 18.75 still becomes 18.8
(the even neighbor, agreeing with half-up, so the 350 m / "67.2s" example is
emitted as 18.8), but a tie like 0.25 is emitted as 0.2 where half-up gives
0.3; and batch-failure features' distance_m is not rounded at all. -/
theorem claim_C9_amended :
    round1 (1875 / 100) = 94 / 5
    ∧ roundHalfUp1 (1875 / 100) = 94 / 5
    ∧ round1 (1 / 4) = 1 / 5
    ∧ estimate_speed_kmh 350 (some "67.2s") = some (1875 / 100)
    ∧ (∃ f, (reconcileBatch
          [⟨((0 : ℝ), (0 : ℝ)), ((3 : ℝ), (0 : ℝ)), [((0 : ℝ), (0 : ℝ)), ((3 : ℝ), (0 : ℝ))]⟩]
          [⟨some 0, some 0, some "OK", some (350 : ℝ), some "67.2s"⟩]).get? 0 = some f
        ∧ f.speed_kmh = some (94 / 5))
    ∧ (∀ s : SubPair, (failFeature s).distance_m = lineLength s.geom) := by
  refine ⟨round1_1875, roundHalfUp1_1875, round1_quarter, estimate_350_672, ?_, fun s => rfl⟩
  have hcell : List.find? (fun c : MatrixCell => c.originIndex == some ((0 : ℕ) : ℤ)
      && c.destinationIndex == some ((0 : ℕ) : ℤ))
      [(⟨some 0, some 0, some "OK", some (350 : ℝ), some "67.2s"⟩ : MatrixCell)]
      = some (⟨some 0, some 0, some "OK", some (350 : ℝ), some "67.2s"⟩ : MatrixCell) :=
    List.find?_cons_of_pos _ (by decide)
  have hsv := find?_mkSpeedVals [⟨some 0, some 0, some "OK", some (350 : ℝ), some "67.2s"⟩] 0
  rw [hcell] at hsv
  have hann := annotateSub_eq_some 0
    ⟨((0 : ℝ), (0 : ℝ)), ((3 : ℝ), (0 : ℝ)), [((0 : ℝ), (0 : ℝ)), ((3 : ℝ), (0 : ℝ))]⟩
    (mkSpeedVals [⟨some 0, some 0, some "OK", some (350 : ℝ), some "67.2s"⟩])
    (speedVal ⟨some 0, some 0, some "OK", some (350 : ℝ), some "67.2s"⟩) hsv
  have hspd : (speedVal ⟨some 0, some 0, some "OK", some (350 : ℝ), some "67.2s"⟩).spd
      = some (1875 / 100) := by
    unfold speedVal
    simp only []
    rw [if_neg (by simp)]
    exact estimate_350_672
  refine ⟨annotateSub 0
    ⟨((0 : ℝ), (0 : ℝ)), ((3 : ℝ), (0 : ℝ)), [((0 : ℝ), (0 : ℝ)), ((3 : ℝ), (0 : ℝ))]⟩
    (mkSpeedVals [⟨some 0, some 0, some "OK", some (350 : ℝ), some "67.2s"⟩]), ?_, ?_⟩
  · rw [reconcileBatch_get?]
    rfl
  · rw [hann]
    show Option.map round1 (speedVal ⟨some 0, some 0, some "OK", some (350 : ℝ),
      some "67.2s"⟩).spd = some (94 / 5)
    rw [hspd]
    show some (round1 (1875 / 100)) = some (94 / 5)
    rw [round1_1875]

theorem pyFloat_10 : pyFloat? (String.mk "10s".toList.dropLast)
    = some (PyFloat.finite 10) := by
  have hcore : pyFloatCore (String.mk "10s".toList.dropLast).toList
      = some (PyCore.finite 10 0) := by
    decide
  unfold pyFloat?
  rw [hcore]
  show some (toPyFloat (PyCore.finite 10 0)) = some (PyFloat.finite 10)
  simp only [toPyFloat]
  norm_num

/-- C10: a matching cell with OK status, a valid positive duration and a zero
or missing reported distance yields emitted speed_kmh 0.0 (computed from the
reported zero distance and classified red), while the emitted distance_m is
the rounded geometric fallback length; the speed is never recomputed from the
fallback distance, so with positive geometric length the emitted speed and
distance are mutually inconsistent. -/
theorem claim_C10 (cells : List MatrixCell) (k : ℕ) (s : SubPair)
    (cell : MatrixCell) (ds : String) (sec : ℚ)
    (hfind : cells.find? (fun c => c.originIndex == some (k : ℤ)
        && c.destinationIndex == some (k : ℤ)) = some cell)
    (hst : cell.status = some "OK")
    (hdist : cell.distanceMeters = none ∨ cell.distanceMeters = some 0)
    (hdur : cell.duration = some ds)
    (hds : ¬ ds = "") (hends : endsWithS ds)
    (hsec : pyFloat? (String.mk ds.toList.dropLast) = some (PyFloat.finite sec))
    (hpos : 0 < sec) :
    (annotateSub k s (mkSpeedVals cells)).speed_kmh = some 0
    ∧ (annotateSub k s (mkSpeedVals cells)).color = "#C62828"
    ∧ (annotateSub k s (mkSpeedVals cells)).distance_m = round1 (lineLength s.geom)
    ∧ (0 < lineLength s.geom →
        estimate_speed_kmh (lineLength s.geom) cell.duration
          = some (lineLength s.geom / (sec : ℝ) * 3.6)
        ∧ (0 : ℝ) ≠ lineLength s.geom / (sec : ℝ) * 3.6) := by
  have hd0 : cell.distanceMeters.getD 0 = 0 := by
    rcases hdist with h | h <;> rw [h] <;> rfl
  have hsv := find?_mkSpeedVals cells k
  rw [hfind] at hsv
  have hann := annotateSub_eq_some k s (mkSpeedVals cells) (speedVal cell) hsv
  have hcond : ¬ (ds = "" ∨ ¬ endsWithS ds) := by
    rintro (h | h)
    · exact hds h
    · exact h hends
  have hleF : pyFloatLe0 (PyFloat.finite sec) = false := by
    simp only [pyFloatLe0]
    exact decide_eq_false (not_le.mpr hpos)
  have hest0 : estimate_speed_kmh 0 cell.duration = some 0 := by
    rw [hdur]
    simp only [estimate_speed_kmh]
    rw [if_neg hcond, hsec]
    show (if pyFloatLe0 (PyFloat.finite sec) = true then none
        else some ((0 : ℝ) / (sec : ℝ) * 3.6)) = some 0
    rw [hleF]
    norm_num
  have hspd : (speedVal cell).spd = some 0 := by
    unfold speedVal
    simp only []
    rw [if_neg (by rw [hst]; simp), hd0]
    exact hest0
  refine ⟨?_, ?_, ?_, ?_⟩
  · rw [hann]
    show Option.map round1 (speedVal cell).spd = some 0
    rw [hspd]
    show some (round1 0) = some 0
    rw [round1_zero]
  · rw [hann]
    show grade_color (speedVal cell).spd = _
    rw [hspd]
    simp only [grade_color]
    rw [if_neg (by norm_num), if_neg (by norm_num), if_neg (by norm_num)]
  · rw [hann]
    show round1 (if (speedVal cell).dist ≤ 0 then lineLength s.geom else _)
        = round1 (lineLength s.geom)
    have hdd : (speedVal cell).dist = 0 := hd0
    rw [hdd, if_pos (le_refl (0 : ℝ))]
  · intro hpos2
    constructor
    · rw [hdur]
      simp only [estimate_speed_kmh]
      rw [if_neg hcond, hsec]
      show (if pyFloatLe0 (PyFloat.finite sec) = true then none
          else some (lineLength s.geom / (sec : ℝ) * 3.6))
        = some (lineLength s.geom / (sec : ℝ) * 3.6)
      rw [hleF]
      simp
    · have hsecR : (0 : ℝ) < (sec : ℝ) := by exact_mod_cast hpos
      have h36 : (0 : ℝ) < lineLength s.geom / (sec : ℝ) * 3.6 := by positivity
      linarith

theorem claim_C10_witness :
    (annotateSub 0
        ⟨((0 : ℝ), (0 : ℝ)), ((3 : ℝ), (0 : ℝ)), [((0 : ℝ), (0 : ℝ)), ((3 : ℝ), (0 : ℝ))]⟩
        (mkSpeedVals [⟨some 0, some 0, some "OK", none, some "10s"⟩])).speed_kmh = some 0
    ∧ (annotateSub 0
        ⟨((0 : ℝ), (0 : ℝ)), ((3 : ℝ), (0 : ℝ)), [((0 : ℝ), (0 : ℝ)), ((3 : ℝ), (0 : ℝ))]⟩
        (mkSpeedVals [⟨some 0, some 0, some "OK", none, some "10s"⟩])).color = "#C62828"
    ∧ (annotateSub 0
        ⟨((0 : ℝ), (0 : ℝ)), ((3 : ℝ), (0 : ℝ)), [((0 : ℝ), (0 : ℝ)), ((3 : ℝ), (0 : ℝ))]⟩
        (mkSpeedVals [⟨some 0, some 0, some "OK", none, some "10s"⟩])).distance_m
        = round1 (lineLength [((0 : ℝ), (0 : ℝ)), ((3 : ℝ), (0 : ℝ))])
    ∧ (0 < lineLength [((0 : ℝ), (0 : ℝ)), ((3 : ℝ), (0 : ℝ))] →
        estimate_speed_kmh (lineLength [((0 : ℝ), (0 : ℝ)), ((3 : ℝ), (0 : ℝ))])
            (some "10s")
          = some (lineLength [((0 : ℝ), (0 : ℝ)), ((3 : ℝ), (0 : ℝ))] / ((10 : ℚ) : ℝ) * 3.6)
        ∧ (0 : ℝ) ≠ lineLength [((0 : ℝ), (0 : ℝ)), ((3 : ℝ), (0 : ℝ))] / ((10 : ℚ) : ℝ) * 3.6) :=
  claim_C10 [⟨some 0, some 0, some "OK", none, some "10s"⟩] 0
    ⟨((0 : ℝ), (0 : ℝ)), ((3 : ℝ), (0 : ℝ)), [((0 : ℝ), (0 : ℝ)), ((3 : ℝ), (0 : ℝ))]⟩
    ⟨some 0, some 0, some "OK", none, some "10s"⟩ "10s" 10
    (List.find?_cons_of_pos _ (by decide)) rfl (Or.inl rfl) rfl (by decide) (by decide)
    pyFloat_10 (by norm_num)

/-! ### run_once structure -/

theorem annotateSub_geometry (k : ℕ) (s : SubPair) (svals : List SVal) :
    (annotateSub k s svals).geometry = s.geom := by
  unfold annotateSub
  cases hf : svals.find? (fun sv => sv.oi == some (k : ℤ) && sv.di == some (k : ℤ)) with
  | none => rfl
  | some sv => rfl

theorem reconcileAux_geometry (svals : List SVal) :
    ∀ (batch : List SubPair) (k : ℕ),
    (reconcileAux svals k batch).map (fun f => f.geometry)
      = batch.map (fun s => s.geom) := by
  intro batch
  induction batch with
  | nil => intro k; rfl
  | cons s t ih =>
      intro k
      show (annotateSub k s svals).geometry
          :: (reconcileAux svals (k + 1) t).map (fun f => f.geometry)
        = s.geom :: t.map (fun s => s.geom)
      rw [annotateSub_geometry, ih (k + 1)]

theorem processBatch_geometry (batch : List SubPair) (res : Option (List MatrixCell)) :
    (processBatch batch res).map (fun f => f.geometry) = batch.map (fun s => s.geom) := by
  cases res with
  | none =>
      show (batch.map failFeature).map (fun f => f.geometry) = _
      rw [List.map_map]
      rfl
  | some cells =>
      exact reconcileAux_geometry (mkSpeedVals cells) batch 0

theorem processAll_geometry (oracle : ℕ → Option (List MatrixCell)) :
    ∀ (bs : List (List SubPair)) (j : ℕ),
    (processAll oracle j bs).map (fun f => f.geometry)
      = bs.flatten.map (fun s => s.geom) := by
  intro bs
  induction bs with
  | nil => intro j; rfl
  | cons b t ih =>
      intro j
      show (processBatch b (oracle j) ++ processAll oracle (j + 1) t).map (fun f => f.geometry)
        = ((b :: t).flatten).map (fun s => s.geom)
      rw [List.map_append, processBatch_geometry, ih (j + 1),
        List.flatten_cons, List.map_append]

theorem chunks_flatten {α : Type} (B : ℕ) (hB : 0 < B) (l : List α) :
    (chunks B l).flatten = l := by
  have H : ∀ (n : ℕ) (l : List α), l.length ≤ n → (chunks B l).flatten = l := by
    intro n
    induction n with
    | zero =>
        intro l hl
        have hnil : l = [] := List.length_eq_zero.mp (Nat.le_zero.mp hl)
        subst hnil
        simp [chunks]
    | succ n ih =>
        intro l hl
        cases l with
        | nil => simp [chunks]
        | cons x xs =>
            have hstep : chunks B (x :: xs)
                = (x :: xs).take B :: chunks B (xs.drop (B - 1)) := by
              simp [chunks]
            rw [hstep, List.flatten_cons]
            have hlen : (xs.drop (B - 1)).length ≤ n := by
              have h1 : (xs.drop (B - 1)).length = xs.length - (B - 1) :=
                List.length_drop _ _
              have h2 : xs.length + 1 ≤ n + 1 := hl
              omega
            rw [ih (xs.drop (B - 1)) hlen]
            cases B with
            | zero => exact absurd hB (lt_irrefl 0)
            | succ B' =>
                rw [List.take_succ_cons]
                have hb : B' + 1 - 1 = B' := rfl
                rw [hb, List.cons_append, List.take_append_drop]
  exact H l.length l (le_refl _)

theorem collectPairs_ok (target : ℝ) :
    ∀ feats : List InFeature,
    (∀ f ∈ feats, f.gtype = "LineString" → f.coords.length ≠ 1) →
    collectPairs target feats = .ok (allSubs feats target) := by
  intro feats
  induction feats with
  | nil => intro _; rfl
  | cons f t ih =>
      intro h
      have ht : ∀ g ∈ t, g.gtype = "LineString" → g.coords.length ≠ 1 :=
        fun g hg => h g (List.mem_cons_of_mem f hg)
      by_cases hg : f.gtype = "LineString"
      · have hc : f.coords.length ≠ 1 := h f (List.mem_cons_self f t) hg
        have hmk : mkLineString f.coords = .ok f.coords := by
          unfold mkLineString
          rw [if_neg hc]
        have hall : allSubs (f :: t) target
            = (densify_to_subsegments f.coords target).map
                (fun tr => (⟨tr.1, tr.2.1, tr.2.2⟩ : SubPair)) ++ allSubs t target := by
          simp [allSubs, List.filter_cons, hg]
        simp only [collectPairs]
        rw [if_pos hg, hmk, ih ht, hall]
      · have hall : allSubs (f :: t) target = allSubs t target := by
          simp [allSubs, List.filter_cons, hg]
        simp only [collectPairs]
        rw [if_neg hg, ih ht, hall]

theorem run_once_ok (key : String) (feats : List InFeature) (target : ℝ) (B : ℕ)
    (oracle : ℕ → Option (List MatrixCell))
    (hwf : ∀ f ∈ feats, f.gtype = "LineString" → f.coords.length ≠ 1) :
    run_once (some key) feats target B oracle
      = .ok (processAll oracle 0 (chunks B (allSubs feats target))) := by
  show (match collectPairs target feats with
    | .error e => (.error e : Except RunError (List Feature))
    | .ok pairs => .ok (processAll oracle 0 (chunks B pairs))) = _
  rw [collectPairs_ok target feats hwf]

/-- C2(amended): with an API key present and every LineString feature having a
coordinate count shapely's constructor accepts (anything but exactly 1),
run_once returns Ok for every pattern of batch-request failures, non-success
cells and malformed durations, and its output has exactly one feature per
densified subsegment, in input traversal order (feature order, then
subsegment order); a missing key aborts with the configuration error.  The
single-coordinate proviso is forced by the counterexample: such a feature
makes the run raise instead. -/
theorem claim_C2_amended (key : String) (feats : List InFeature) (target : ℝ) (B : ℕ)
    (oracle : ℕ → Option (List MatrixCell)) (hB : 0 < B)
    (hwf : ∀ f ∈ feats, f.gtype = "LineString" → f.coords.length ≠ 1) :
    (∃ out, run_once (some key) feats target B oracle = .ok out
      ∧ out.map (fun f => f.geometry) = (allSubs feats target).map (fun s => s.geom)
      ∧ out.length = (allSubs feats target).length)
    ∧ run_once none feats target B oracle = .error .config := by
  constructor
  · refine ⟨processAll oracle 0 (chunks B (allSubs feats target)),
      run_once_ok key feats target B oracle hwf, ?_, ?_⟩
    · rw [processAll_geometry oracle (chunks B (allSubs feats target)) 0,
        chunks_flatten B hB]
    · have h := processAll_geometry oracle (chunks B (allSubs feats target)) 0
      rw [chunks_flatten B hB] at h
      have h2 := congrArg List.length h
      simpa using h2
  · rfl

theorem claim_C2_counterexample :
    run_once (some "key") [⟨"LineString", [((0 : ℝ), (0 : ℝ))]⟩] 300 50 (fun _ => none)
      = .error .parse := by
  show (match collectPairs 300 [⟨"LineString", [((0 : ℝ), (0 : ℝ))]⟩] with
    | .error e => (.error e : Except RunError (List Feature))
    | .ok pairs => .ok (processAll (fun _ => none) 0 (chunks 50 pairs))) = .error .parse
  have h : collectPairs 300 [⟨"LineString", [((0 : ℝ), (0 : ℝ))]⟩] = .error .parse := by
    simp [collectPairs, mkLineString]
  rw [h]

theorem claim_C2_amended_witness :
    (0 : ℕ) < 50
    ∧ ((∃ out, run_once (some "key")
          [⟨"LineString", [((0 : ℝ), (0 : ℝ)), ((3 : ℝ), (0 : ℝ))]⟩] 1 50 (fun _ => none)
          = .ok out
        ∧ out.map (fun f => f.geometry)
            = (allSubs [⟨"LineString", [((0 : ℝ), (0 : ℝ)), ((3 : ℝ), (0 : ℝ))]⟩] 1).map
                (fun s => s.geom)
        ∧ out.length
            = (allSubs [⟨"LineString", [((0 : ℝ), (0 : ℝ)), ((3 : ℝ), (0 : ℝ))]⟩] 1).length)
      ∧ run_once none [⟨"LineString", [((0 : ℝ), (0 : ℝ)), ((3 : ℝ), (0 : ℝ))]⟩] 1 50
          (fun _ => none) = .error .config) := by
  refine ⟨by norm_num, ?_⟩
  exact claim_C2_amended "key" [⟨"LineString", [((0 : ℝ), (0 : ℝ)), ((3 : ℝ), (0 : ℝ))]⟩]
    1 50 (fun _ => none) (by norm_num)
    (by
      intro f hf _
      rw [List.mem_singleton] at hf
      subst hf
      simp)

/-! ### C5: planar degree lengths versus the spec's haversine meters -/

theorem haversine_equator (lon : ℝ) :
    haversineDistM ((0 : ℝ), (0 : ℝ)) ((lon : ℝ), (0 : ℝ))
      = 2 * 6371008.8 * Real.arcsin (Real.sqrt (Real.sin (lon * (Real.pi / 180) / 2) ^ 2)) := by
  unfold haversineDistM
  norm_num

theorem haversine_small :
    haversineDistM ((0 : ℝ), (0 : ℝ)) ((1 / 100 : ℝ), (0 : ℝ))
      = 6371008.8 * Real.pi / 18000 := by
  have hpi := Real.pi_pos
  have hx : (0 : ℝ) ≤ Real.pi / 36000 := by positivity
  have hx2 : Real.pi / 36000 ≤ Real.pi := by nlinarith
  have hsin : (0 : ℝ) ≤ Real.sin (Real.pi / 36000) :=
    Real.sin_nonneg_of_nonneg_of_le_pi hx hx2
  have hhalf : Real.pi / 36000 ≤ Real.pi / 2 := by nlinarith
  have hneg : -(Real.pi / 2) ≤ Real.pi / 36000 := by nlinarith
  rw [haversine_equator]
  have harg : (1 / 100 : ℝ) * (Real.pi / 180) / 2 = Real.pi / 36000 := by ring
  rw [harg, Real.sqrt_sq hsin, Real.arcsin_sin hneg hhalf]
  ring

theorem lineLength_small :
    lineLength [((0 : ℝ), (0 : ℝ)), ((1 / 100 : ℝ), (0 : ℝ))] = 1 / 100 := by
  have h9 : eucDist ((0 : ℝ), (0 : ℝ)) ((1 / 100 : ℝ), (0 : ℝ)) = 1 / 100 := by
    have hsq : eucDist ((0 : ℝ), (0 : ℝ)) ((1 / 100 : ℝ), (0 : ℝ))
        = Real.sqrt ((1 / 100 : ℝ) ^ 2) := by
      unfold eucDist
      norm_num
    rw [hsq, Real.sqrt_sq (by norm_num : (0 : ℝ) ≤ 1 / 100)]
  show eucDist ((0 : ℝ), (0 : ℝ)) ((1 / 100 : ℝ), (0 : ℝ))
      + lineLength [((1 / 100 : ℝ), (0 : ℝ))] = 1 / 100
  rw [h9]
  show (1 / 100 : ℝ) + 0 = 1 / 100
  norm_num

/-- C5: the distance the pipeline actually uses is shapely's planar length in
coordinate (degree) units, not the spec's haversine meters.  For the equator
points (0,0) and (0.01,0) — about 1.1 km apart on Earth — the pipeline's
length (and the `distance_m` a batch-failure feature emits) is 0.01, while the
spec-modelled haversine distance exceeds 1000 m; consequently a 0.01-degree
chain is "longer than" nothing and `n = max(1, ceil(0.01/300)) = 1`, so the
densifier never actually splits at ~300 m. -/
theorem claim_C5_bug :
    lineLength [((0 : ℝ), (0 : ℝ)), ((1 / 100 : ℝ), (0 : ℝ))] = 1 / 100
    ∧ (failFeature ⟨((0 : ℝ), (0 : ℝ)), ((1 / 100 : ℝ), (0 : ℝ)),
        [((0 : ℝ), (0 : ℝ)), ((1 / 100 : ℝ), (0 : ℝ))]⟩).distance_m = 1 / 100
    ∧ 1000 < haversineDistM ((0 : ℝ), (0 : ℝ)) ((1 / 100 : ℝ), (0 : ℝ))
    ∧ (failFeature ⟨((0 : ℝ), (0 : ℝ)), ((1 / 100 : ℝ), (0 : ℝ)),
        [((0 : ℝ), (0 : ℝ)), ((1 / 100 : ℝ), (0 : ℝ))]⟩).distance_m
        ≠ haversineDistM ((0 : ℝ), (0 : ℝ)) ((1 / 100 : ℝ), (0 : ℝ))
    ∧ cutCount [((0 : ℝ), (0 : ℝ)), ((1 / 100 : ℝ), (0 : ℝ))] 300 = 1 := by
  have hhav : 1000 < haversineDistM ((0 : ℝ), (0 : ℝ)) ((1 / 100 : ℝ), (0 : ℝ)) := by
    rw [haversine_small]
    nlinarith [Real.pi_gt_three]
  refine ⟨lineLength_small, ?_, hhav, ?_, ?_⟩
  · show lineLength [((0 : ℝ), (0 : ℝ)), ((1 / 100 : ℝ), (0 : ℝ))] = 1 / 100
    exact lineLength_small
  · show lineLength [((0 : ℝ), (0 : ℝ)), ((1 / 100 : ℝ), (0 : ℝ))] ≠ _
    rw [lineLength_small]
    intro hcontra
    rw [← hcontra] at hhav
    norm_num at hhav
  · unfold cutCount
    rw [lineLength_small]
    have hceil : ⌈(1 / 100 : ℝ) / 300⌉₊ = 1 := by
      have hpos : (0 : ℝ) < (1 / 100 : ℝ) / 300 := by norm_num
      have hle : ((1 / 100 : ℝ) / 300) ≤ 1 := by norm_num
      have h1 : ⌈(1 / 100 : ℝ) / 300⌉₊ ≤ 1 := Nat.ceil_le.mpr (by norm_num)
      have h2 : 0 < ⌈(1 / 100 : ℝ) / 300⌉₊ := by
        rw [Nat.lt_ceil]
        norm_num
      omega
    rw [hceil]
    rfl
